import Mathlib

/-!
# SetTexturesToMaterial: naming and placement convention

A shallow embedding of `FSetTexturesToMaterialModule::SetTexturesToMaterialInstance`
(`Private/SetTexturesToMaterial.cpp`, lines 85-234).

Strings (`FString`) are lists of characters.  The engine string primitives the
procedure calls are embedded with the behaviour of their engine declarations:

* `FString::StartsWith`, `FString::EndsWith`, `FString::RemoveFromEnd` take a
  trailing `ESearchCase::Type SearchCase = ESearchCase::IgnoreCase` argument that
  the procedure never passes, so every such test ignores ASCII letter case;
* `operator==` and `operator!=` on two `FString`s are `Stricmp`-based, hence
  ignore ASCII letter case as well;
* `FString::ParseIntoArray(Out, Delim, InCullEmpty = true)` drops empty pieces;
* `FPaths::Combine` joins with a single `/` unless the left part already ends in
  a slash or backslash (or is empty), or the right part starts with `/`;
* `TArray::operator[]` range-checks and `->` on a null pointer faults: both end
  the run, which the embedding records as the outcome `crashed`.

Calls into the asset database are answered by an `Engine`, a record of oracle
functions that may depend on everything the procedure did so far (the trace of
`Action`s); every call into the engine, logging included, is recorded as an `Action`.
The dead locals `Path` and `TexturePath` of lines 102-108 have no effect and are left out.
-/

namespace SetTexturesToMaterial

/-- Engine strings, as lists of characters. -/
abbrev FString := List Char

/-! ## Engine string primitives -/

/-- ASCII-only case folding of `FCString::Stricmp` applied to a whole string. -/
def ToLower (s : FString) : FString := s.map Char.toLower

/-- Case-insensitive equality: `FString::operator==` (and `Stricmp(..) == 0`). -/
def Stricmp (a b : FString) : Bool := decide (ToLower a = ToLower b)

/-- Engine call `FString::StartsWith(Prefix)` with the default `ESearchCase::IgnoreCase`;
an empty prefix never matches. -/
def StartsWith (s pre : FString) : Bool :=
  !pre.isEmpty && Stricmp (s.take pre.length) pre

/-- Engine call `FString::EndsWith(Suffix)` with the default `ESearchCase::IgnoreCase`;
an empty suffix never matches. -/
def EndsWith (s suf : FString) : Bool :=
  !suf.isEmpty && decide (suf.length ≤ s.length) &&
    Stricmp (s.drop (s.length - suf.length)) suf

/-- Engine call `FString::RemoveFromEnd(Suffix)` with the default `ESearchCase::IgnoreCase`. -/
def RemoveFromEnd (s suf : FString) : FString :=
  if EndsWith s suf then s.take (s.length - suf.length) else s

/-- Test `IsSlashOrBackslash` used by the path helpers. -/
def IsSlashOrBackslash (c : Char) : Bool := c == '/' || c == '\\'

/-- Does the string end in a slash or a backslash? -/
def endsInSlash (s : FString) : Bool :=
  match s.getLast? with
  | some c => IsSlashOrBackslash c
  | none => false

/-- Engine call `FString::PathAppend` (the `/=` operator used by `FPaths::Combine`). -/
def PathAppend (a b : FString) : FString :=
  match b with
  | [] => if !a.isEmpty && !endsInSlash a then a ++ ['/'] else a
  | c :: _ =>
    if !a.isEmpty && !endsInSlash a && c != '/' then a ++ ['/'] ++ b else a ++ b

/-- Engine call `FPaths::Combine(A, B)`: both parts path-appended to an empty string. -/
def Combine (a b : FString) : FString := PathAppend (PathAppend [] a) b

/-- The pieces of `s` between occurrences of the delimiter `d`, empty ones included. -/
def splitOnChar (d : Char) : FString → List FString
  | [] => [[]]
  | c :: cs =>
    if c = d then [] :: splitOnChar d cs
    else
      match splitOnChar d cs with
      | [] => [[c]]
      | t :: ts => (c :: t) :: ts

/-- Engine call `FString::ParseIntoArray(Out, TEXT("_"))` with the default `InCullEmpty = true`:
the non-empty pieces between underscores. -/
def ParseIntoArray (s : FString) : List FString :=
  (splitOnChar '_' s).filter (fun t => !t.isEmpty)

/-- Split at the last character satisfying `p`: the part before it and the part after it. -/
def splitLast (p : Char → Bool) : FString → Option (FString × FString)
  | [] => none
  | c :: cs =>
    match splitLast p cs with
    | some (a, b) => some (c :: a, b)
    | none => if p c then some ([], cs) else none

/-- Engine call `FPaths::GetPath`: everything before the last slash or backslash, or empty. -/
def GetPath (s : FString) : FString :=
  match splitLast IsSlashOrBackslash s with
  | some (a, _) => a
  | none => []

/-! ## String constants of the procedure -/

def strT : FString := ['T', '_']
def strMI : FString := ['M', 'I', '_']
def strTextures : FString := ['_', 'T', 'e', 'x', 't', 'u', 'r', 'e', 's']
def strTexturesSlash : FString := ['_', 'T', 'e', 'x', 't', 'u', 'r', 'e', 's', '/']
def strMasterPath : FString := "/SetTexturesToMaterial/M_Master".toList

/-! ## Name and path derivation (lines 94-141) -/

/-- Lines 94-110: the texture folder.  A package path that does not end in `_Textures`
gets `_Textures/` combined onto it; otherwise it is kept as it is. -/
def RelativeTexturePath (packagePath : FString) : FString :=
  if !EndsWith packagePath strTextures then Combine packagePath strTexturesSlash
  else packagePath

/-- Lines 116-121: the object name with `T_` inserted at the front when `StartsWith` fails. -/
def PrefixedName (objectName : FString) : FString :=
  if !StartsWith objectName strT then strT ++ objectName else objectName

/-- Line 124: the rename target. -/
def DestinationPath (packagePath objectName : FString) : FString :=
  Combine (RelativeTexturePath packagePath) (PrefixedName objectName)

/-- Lines 128-129: the token array of the prefixed name. -/
def ObjectNameArray (objectName : FString) : List FString :=
  ParseIntoArray (PrefixedName objectName)

/-- Lines 132-133: `"MI_"` in front of token 1; `none` when index 1 is out of range. -/
def MaterialInstanceName (objectName : FString) : Option FString :=
  match (ObjectNameArray objectName).get? 1 with
  | some t => some (strMI ++ t)
  | none => none

/-- Line 201: `ObjectNameArray.Last()`; `none` on an empty array. -/
def ParameterSuffix (objectName : FString) : Option FString :=
  (ObjectNameArray objectName).getLast?

/-- Lines 137-141: the folder string with `_Textures/` removed from its end and the
material-instance name appended.  `Append` changes `MaterialInstanceFolderPath`
itself, so this one string is both the lookup path and the argument of `GetPath`. -/
def MaterialInstanceFilePath (packagePath miName : FString) : FString :=
  RemoveFromEnd (RelativeTexturePath packagePath) strTexturesSlash ++ miName

/-! ## Engine objects, effects and oracles -/

/-- Engine classes the procedure casts to. -/
inductive UClass
  | Texture2D
  | Material
  | MaterialInstanceConstant
  | Other
  deriving DecidableEq

/-- A selected asset (`FAssetData`) together with the class of the object `GetAsset()` yields. -/
structure FAssetData where
  PackageName : FString
  PackagePath : FString
  AssetName : FString
  AssetClass : UClass
  deriving DecidableEq

/-- A loaded engine object: its class, `GetName()` and `GetPackage()->GetPathName()`. -/
structure UObject where
  Class : UClass
  Name : FString
  PackagePathName : FString
  deriving DecidableEq

/-- Log verbosity of `UE_LOG`. -/
inductive Verbosity
  | Log
  | Warning
  | Error
  deriving DecidableEq

/-- Every call into the engine that the procedure makes, in program order. -/
inductive Action
  | SetFlagsTransactional (object : FString)
  | LoadAsset (path : FString)
  | CreateAsset (assetName packagePath : FString)
  | SaveAsset (path : FString)
  | SetParentEditorOnly (materialInstance : FString)
  | SetSRGB (texture : FString) (value : Bool)
  | SetTextureParameterValueEditorOnly (materialInstance parameter texture : FString)
  | RenameAsset (source destination : FString)
  | UE_LOG (verbosity : Verbosity) (message : FString)
  deriving DecidableEq

/-- How the loop body (or the whole loop) ended: it ran to its end, left through
`return`, or faulted on a range check or a null pointer. -/
inductive Outcome
  | completed
  | returned
  | crashed
  deriving DecidableEq

/-- The asset database and material system, as oracles over the trace so far. -/
structure Engine where
  /-- Oracle for `UEditorAssetSubsystem::LoadAsset`; `none` is a null result. -/
  LoadAsset : List Action → FString → Option UObject
  /-- Oracle for `IAssetTools::CreateAsset(name, path, class, factory)`; `none` is a null result. -/
  CreateAsset : List Action → FString → FString → Option UObject
  /-- Oracle for `MaterialInstance->Parent == MasterMaterial`. -/
  ParentIs : List Action → UObject → UObject → Bool
  /-- Oracle for `GetAllTextureParameterInfo`: the parameter names, in order. -/
  GetAllTextureParameterInfo : List Action → UObject → List FString
  /-- Oracle for `MasterMaterial->GetTextureParameterValue`: the `SRGB` flag of the master
  material's texture for a parameter; `none` when the texture pointer stays null. -/
  GetTextureParameterValue : List Action → UObject → FString → Option Bool

/-- Engine cast `Cast<UMaterialInstanceConstant>`. -/
def CastMaterialInstanceConstant : Option UObject → Option UObject
  | some o => if o.Class = UClass.MaterialInstanceConstant then some o else none
  | none => none

/-- Engine cast `Cast<UMaterialInterface>`: materials and material instances. -/
def CastMaterialInterface : Option UObject → Option UObject
  | some o =>
    if o.Class = UClass.Material ∨ o.Class = UClass.MaterialInstanceConstant then some o
    else none
  | none => none

/-- Engine cast `Cast<UTexture2D>(SelectedAsset.GetAsset())` succeeds. -/
def IsTexture2D (asset : FAssetData) : Bool := decide (asset.AssetClass = UClass.Texture2D)

/-! ## Log messages -/

def msgCreating (name : FString) : FString := "Hey we are doing ".toList ++ name
def msgNoMaster : FString := "Can't find Master Material 'M_Master' in content folder".toList
def msgNoInstance : FString := "Can't find Material Instance".toList
def msgSettingSRGB (name : FString) : FString :=
  "Setting ".toList ++ name ++ " to SRGB of assigned".toList
def msgNoSuffix (names : List FString) : FString :=
  "Could not find selected texture suffix in ".toList ++ List.intercalate [' ', ','] names

/-! ## The procedure -/

/-- Lines 145-168: load the material instance, and create and save one when the load
fails.  The second component is `none` when `MaterialInstance->SetFlags` runs on the
null result of a failed creation; otherwise it holds the `MaterialInstance` pointer. -/
def loadOrCreate (eng : Engine) (hist : List Action) (miName miFilePath : FString) :
    List Action × Option (Option UObject) :=
  let e0 := [Action.LoadAsset miFilePath]
  match CastMaterialInstanceConstant (eng.LoadAsset hist miFilePath) with
  | some mi => (e0, some (some mi))
  | none =>
    let e1 := e0 ++ [Action.CreateAsset miName (GetPath miFilePath)]
    match CastMaterialInstanceConstant (eng.CreateAsset (hist ++ e0) miName (GetPath miFilePath)) with
    | none => (e1, none)
    | some mi =>
      (e1 ++ [Action.SetFlagsTransactional mi.PackagePathName,
              Action.UE_LOG Verbosity.Warning (msgCreating mi.Name),
              Action.SaveAsset mi.PackagePathName], some (some mi))

/-- Lines 198-217: the search loop over the parameter names.  The second component is
`none` when `MasterMatTexture->SRGB` runs on a null pointer, else `FoundParameter`. -/
def findParameter (eng : Engine) (hist : List Action) (asset : FAssetData)
    (mi master : UObject) (suffix : FString) : List FString → List Action × Option Bool
  | [] => ([], some false)
  | p :: ps =>
    if Stricmp suffix p then
      if IsTexture2D asset then
        match eng.GetTextureParameterValue hist master p with
        | none => ([Action.UE_LOG Verbosity.Log (msgSettingSRGB asset.AssetName)], none)
        | some srgb =>
          ([Action.UE_LOG Verbosity.Log (msgSettingSRGB asset.AssetName),
            Action.SetSRGB asset.PackageName srgb,
            Action.SetTextureParameterValueEditorOnly mi.PackagePathName p asset.PackageName],
           some true)
      else ([], some false)
    else findParameter eng hist asset mi master suffix ps

/-- Lines 192-227: enumerate the texture parameters, bind on the first match, and log
the available names when nothing was bound. -/
def bindTexture (eng : Engine) (hist : List Action) (asset : FAssetData)
    (mi master : UObject) (suffix : FString) : List Action × Option Bool :=
  let names := eng.GetAllTextureParameterInfo hist mi
  match findParameter eng hist asset mi master suffix names with
  | (e, none) => (e, none)
  | (e, some true) => (e, some true)
  | (e, some false) => (e ++ [Action.UE_LOG Verbosity.Error (msgNoSuffix names)], some false)

/-- Lines 229-232: rename when source and destination differ (`operator!=`). -/
def renameStep (sourcePath destinationPath : FString) : List Action :=
  if !Stricmp sourcePath destinationPath then [Action.RenameAsset sourcePath destinationPath]
  else []

/-- Lines 170-232, once `MaterialInstance` is settled. -/
def afterInstance (eng : Engine) (hist : List Action) (asset : FAssetData)
    (suffix : FString) (materialInstance : Option UObject) : List Action × Outcome :=
  let e0 := [Action.LoadAsset strMasterPath]
  match CastMaterialInterface (eng.LoadAsset hist strMasterPath) with
  | none => (e0 ++ [Action.UE_LOG Verbosity.Error msgNoMaster], Outcome.returned)
  | some master =>
    match materialInstance with
    | none => (e0 ++ [Action.UE_LOG Verbosity.Error msgNoInstance], Outcome.returned)
    | some mi =>
      let e1 := e0 ++
        (if !eng.ParentIs (hist ++ e0) mi master then [Action.SetParentEditorOnly mi.PackagePathName]
         else [])
      match bindTexture eng (hist ++ e1) asset mi master suffix with
      | (e2, none) => (e1 ++ e2, Outcome.crashed)
      | (e2, some _) =>
        (e1 ++ e2 ++
          renameStep asset.PackageName (DestinationPath asset.PackagePath asset.AssetName),
         Outcome.completed)

/-- The loop body, lines 91-232, for one selected asset: the actions it performs after
the trace `hist`, and how it ended.  Both array accesses (`[1]` at line 132, `Last()` at
line 201) are range-checked; `Last()` cannot fail once index 1 exists. -/
def processAsset (eng : Engine) (hist : List Action) (asset : FAssetData) :
    List Action × Outcome :=
  let e0 := [Action.SetFlagsTransactional asset.PackageName]
  match MaterialInstanceName asset.AssetName, ParameterSuffix asset.AssetName with
  | some miName, some suffix =>
    match loadOrCreate eng (hist ++ e0) miName
        (MaterialInstanceFilePath asset.PackagePath miName) with
    | (e1, none) => (e0 ++ e1, Outcome.crashed)
    | (e1, some materialInstance) =>
      match afterInstance eng (hist ++ e0 ++ e1) asset suffix materialInstance with
      | (e2, outcome) => (e0 ++ e1 ++ e2, outcome)
  | _, _ => (e0, Outcome.crashed)

/-- The loop of lines 89-233 over the selected textures, started after the trace
`hist`: the whole trace at the end, and how the loop ended. -/
def SetTexturesToMaterialInstance (eng : Engine) :
    List Action → List FAssetData → List Action × Outcome
  | hist, [] => (hist, Outcome.completed)
  | hist, asset :: rest =>
    match processAsset eng hist asset with
    | (e, Outcome.completed) => SetTexturesToMaterialInstance eng (hist ++ e) rest
    | (e, outcome) => (hist ++ e, outcome)

/-! ## Where the asset registry places an asset -/

/-- Engine call `FPackageName::GetLongPackagePath`: the folder of a package name, the
part before its last `/`. -/
def GetLongPackagePath (packageName : FString) : FString :=
  match splitLast (fun c => c == '/') packageName with
  | some (a, _) => a
  | none => []

/-- Engine call `FPackageName::GetShortName`: the last component of a package name. -/
def GetShortName (packageName : FString) : FString :=
  match splitLast (fun c => c == '/') packageName with
  | some (_, b) => b
  | none => packageName

/-- The asset data of a texture stored under the package name `packageName`. -/
def textureAt (packageName : FString) : FAssetData :=
  { PackageName := packageName, PackagePath := GetLongPackagePath packageName,
    AssetName := GetShortName packageName, AssetClass := UClass.Texture2D }

/-! ## Sample data -/

/-- Sample material instance object stored at `path`. -/
def sampleInstance (path : FString) : UObject :=
  { Class := UClass.MaterialInstanceConstant, Name := "MI_Wood".toList, PackagePathName := path }

/-- Sample master material object. -/
def sampleMaster : UObject :=
  { Class := UClass.Material, Name := "M_Master".toList, PackagePathName := strMasterPath }

/-- Sample engine: every asset loads, the master material has a texture for every
parameter, and every material instance has the given texture parameters. -/
def sampleEngine (params : List FString) : Engine :=
  { LoadAsset := fun _ path => if path = strMasterPath then some sampleMaster
                               else some (sampleInstance path)
    CreateAsset := fun _ name path => some (sampleInstance (path ++ '/' :: name))
    ParentIs := fun _ _ _ => true
    GetAllTextureParameterInfo := fun _ _ => params
    GetTextureParameterValue := fun _ _ _ => some true }

/-- Sample engine whose material instances are not yet children of the master material:
before `SetParentEditorOnly` an instance lists the texture parameter `Albedo`, afterwards
it lists the parameters of the master material, here only `Normal`. -/
def engineReparenting : Engine :=
  { LoadAsset := fun _ path => if path = strMasterPath then some sampleMaster
                               else some (sampleInstance path)
    CreateAsset := fun _ name path => some (sampleInstance (path ++ '/' :: name))
    ParentIs := fun _ _ _ => false
    GetAllTextureParameterInfo := fun h mi =>
      if Action.SetParentEditorOnly mi.PackagePathName ∈ h then ["Normal".toList]
      else ["Albedo".toList]
    GetTextureParameterValue := fun _ _ _ => some true }

/-- Sample engine in which the master material cannot be loaded and no material
instance exists yet; creating one succeeds. -/
def engineWithoutMaster : Engine :=
  { LoadAsset := fun _ _ => none
    CreateAsset := fun _ name path => some (sampleInstance (path ++ '/' :: name))
    ParentIs := fun _ _ _ => true
    GetAllTextureParameterInfo := fun _ _ => []
    GetTextureParameterValue := fun _ _ _ => none }

/-- Sample engine in which the master material loads but no material instance can be
loaded or created. -/
def engineWithoutInstance : Engine :=
  { LoadAsset := fun _ path => if path = strMasterPath then some sampleMaster else none
    CreateAsset := fun _ _ _ => none
    ParentIs := fun _ _ _ => true
    GetAllTextureParameterInfo := fun _ _ => []
    GetTextureParameterValue := fun _ _ _ => none }

/-- Sample texture asset named `name` in folder `folder`. -/
def sampleTexture (folder name : FString) : FAssetData :=
  { PackageName := folder ++ '/' :: name, PackagePath := folder, AssetName := name,
    AssetClass := UClass.Texture2D }

/-! ## Case folding of single characters -/

theorem toLower_cases (c : Char) :
    Char.toLower c = c ∨ ∃ n, 65 ≤ n ∧ n ≤ 90 ∧ c = Char.ofNat n ∧ Char.toLower c = Char.ofNat (n + 32) := by
  by_cases h : c.toNat ≥ 65 ∧ c.toNat ≤ 90
  · right
    refine ⟨c.toNat, h.1, h.2, (Char.ofNat_toNat c).symm, ?_⟩
    simp [Char.toLower, h]
  · left
    simp only [Char.toLower]
    rw [if_neg h]

theorem toLower_eq_underscore (c : Char) : Char.toLower c = '_' ↔ c = '_' := by
  constructor
  · intro h
    rcases toLower_cases c with h1 | ⟨n, h65, h90, hc, hl⟩
    · rw [h1] at h; exact h
    · exfalso
      rw [hl] at h
      clear hl hc
      interval_cases n <;> revert h <;> decide
  · rintro rfl; decide

theorem toLower_eq_slash (c : Char) : Char.toLower c = '/' ↔ c = '/' := by
  constructor
  · intro h
    rcases toLower_cases c with h1 | ⟨n, h65, h90, hc, hl⟩
    · rw [h1] at h; exact h
    · exfalso
      rw [hl] at h
      clear hl hc
      interval_cases n <;> revert h <;> decide
  · rintro rfl; decide

theorem toLower_eq_t (c : Char) : Char.toLower c = 't' ↔ c = 'T' ∨ c = 't' := by
  constructor
  · intro h
    rcases toLower_cases c with h1 | ⟨n, h65, h90, hc, hl⟩
    · rw [h1] at h; exact Or.inr h
    · left
      rw [hl] at h
      subst hc
      clear hl
      interval_cases n <;> revert h <;> decide
  · rintro (rfl | rfl) <;> decide

/-! ## String primitives -/

theorem PathAppend_nil_left (a : FString) : PathAppend [] a = a := by
  cases a <;> simp [PathAppend]

theorem Combine_eq_PathAppend (a b : FString) : Combine a b = PathAppend a b := by
  simp [Combine, PathAppend_nil_left]

theorem endsInSlash_concat (a : FString) (c : Char) :
    endsInSlash (a ++ [c]) = IsSlashOrBackslash c := by
  simp [endsInSlash]

theorem Combine_insert (a : FString) (c : Char) (b : FString)
    (ha : a ≠ []) (hs : endsInSlash a = false) (hc : c ≠ '/') :
    Combine a (c :: b) = a ++ '/' :: c :: b := by
  rw [Combine_eq_PathAppend]
  simp [PathAppend, ha, hs, hc]

theorem Combine_after_slash (a b : FString) (hs : endsInSlash a = true) :
    Combine a b = a ++ b := by
  rw [Combine_eq_PathAppend]
  cases b <;> simp [PathAppend, hs]

theorem Combine_nil_left (b : FString) : Combine [] b = b := by
  rw [Combine_eq_PathAppend, PathAppend_nil_left]


theorem ToLower_strT : ToLower strT = ['t', '_'] := by decide

theorem StartsWith_strT_iff (N : FString) :
    StartsWith N strT = true ↔ N.take 2 = ['T', '_'] ∨ N.take 2 = ['t', '_'] := by
  have hlen : strT.length = 2 := rfl
  have hne : strT.isEmpty = false := rfl
  simp only [StartsWith, Stricmp, hlen, hne, ToLower_strT, Bool.not_false, Bool.true_and,
    decide_eq_true_eq]
  match N with
  | [] => simp [ToLower]
  | [a] => simp [ToLower]
  | a :: b :: r =>
    simp only [ToLower, List.take_succ_cons, List.take_zero, List.map_cons, List.map_nil,
      List.cons.injEq, and_true, toLower_eq_t, toLower_eq_underscore]
    constructor
    · rintro ⟨h1 | h1, h2⟩
      · exact Or.inl ⟨h1, h2⟩
      · exact Or.inr ⟨h1, h2⟩
    · rintro (⟨h1, h2⟩ | ⟨h1, h2⟩)
      · exact ⟨Or.inl h1, h2⟩
      · exact ⟨Or.inr h1, h2⟩

theorem StartsWith_strT_append (X : FString) : StartsWith (strT ++ X) strT = true := by
  rw [StartsWith_strT_iff]
  left
  rfl

theorem StartsWith_PrefixedName (N : FString) : StartsWith (PrefixedName N) strT = true := by
  unfold PrefixedName
  by_cases h : StartsWith N strT = true
  · simp [h]
  · simp [h, StartsWith_strT_append]

theorem PrefixedName_idem (N : FString) : PrefixedName (PrefixedName N) = PrefixedName N := by
  have h := StartsWith_PrefixedName N
  generalize PrefixedName N = M at h ⊢
  simp [PrefixedName, h]

/-! ## Suffix tests and path joining -/

theorem ToLower_length (s : FString) : (ToLower s).length = s.length := by
  simp [ToLower]

theorem EndsWith_append (x y suf : FString) (h : ToLower y = ToLower suf) (hne : suf ≠ []) :
    EndsWith (x ++ y) suf = true := by
  have hlen : y.length = suf.length := by
    rw [← ToLower_length y, h, ToLower_length]
  have hne2 : suf.isEmpty = false := by cases suf <;> simp_all
  have hdrop : List.drop ((x ++ y).length - suf.length) (x ++ y) = y := by
    rw [List.length_append, ← hlen, Nat.add_sub_cancel]
    exact List.drop_left x y
  simp [EndsWith, hne2, hdrop, Stricmp, h, ← hlen]

theorem EndsWith_split (s suf : FString) (h : EndsWith s suf = true) :
    ∃ x y, s = x ++ y ∧ ToLower y = ToLower suf ∧ suf ≠ [] := by
  simp only [EndsWith, Stricmp, Bool.and_eq_true, Bool.not_eq_true', decide_eq_true_eq] at h
  refine ⟨s.take (s.length - suf.length), s.drop (s.length - suf.length),
    (List.take_append_drop _ _).symm, h.2, ?_⟩
  intro e
  simp [e] at h

theorem getLast_of_ToLower_eq (y suf : FString) (c : Char) (h : ToLower y = ToLower suf)
    (hc : suf.getLast? = some c) : ∃ d, y.getLast? = some d ∧ Char.toLower d = Char.toLower c := by
  have h1 : (ToLower y).getLast? = (ToLower suf).getLast? := by rw [h]
  simp only [ToLower, List.getLast?_map, hc, Option.map_some'] at h1
  cases hy : y.getLast? with
  | none => simp [hy] at h1
  | some d =>
    refine ⟨d, rfl, ?_⟩
    simpa [hy] using h1

theorem EndsWith_strTextures_last (P : FString) (h : EndsWith P strTextures = true) :
    ∃ d, P.getLast? = some d ∧ Char.toLower d = 's' := by
  obtain ⟨x, y, hP, hy, -⟩ := EndsWith_split P strTextures h
  obtain ⟨d, hd, hd2⟩ := getLast_of_ToLower_eq y strTextures 's' hy (by decide)
  refine ⟨d, ?_, hd2⟩
  rw [hP, List.getLast?_append, hd]
  rfl

theorem EndsWith_strTextures_ne_nil (P : FString) (h : EndsWith P strTextures = true) :
    P ≠ [] := by
  obtain ⟨d, hd, -⟩ := EndsWith_strTextures_last P h
  intro e
  simp [e] at hd

theorem EndsWith_strTextures_endsInSlash (P : FString) (h : EndsWith P strTextures = true) :
    endsInSlash P = false := by
  obtain ⟨d, hd, hd2⟩ := EndsWith_strTextures_last P h
  simp only [endsInSlash, hd, IsSlashOrBackslash]
  have h1 : d ≠ '/' := by
    rintro rfl
    revert hd2
    decide
  have h2 : d ≠ '\\' := by
    rintro rfl
    revert hd2
    decide
  simp [h1, h2]

theorem EndsWith_strTextures_not_slash (P : FString) (h : EndsWith P strTextures = true) :
    EndsWith P strTexturesSlash = false := by
  obtain ⟨d, hd, hd2⟩ := EndsWith_strTextures_last P h
  cases h2 : EndsWith P strTexturesSlash with
  | false => rfl
  | true =>
    exfalso
    obtain ⟨x, y, hP, hy, -⟩ := EndsWith_split P strTexturesSlash h2
    obtain ⟨e, he, he2⟩ := getLast_of_ToLower_eq y strTexturesSlash '/' hy (by decide)
    have he3 : P.getLast? = some e := by
      rw [hP, List.getLast?_append, he]
      rfl
    rw [hd] at he3
    injection he3 with he4
    subst he4
    rw [hd2] at he2
    revert he2
    decide

theorem RemoveFromEnd_append (x : FString) :
    RemoveFromEnd (x ++ strTexturesSlash) strTexturesSlash = x := by
  have h := EndsWith_append x strTexturesSlash strTexturesSlash rfl (by decide)
  simp only [RemoveFromEnd, h, if_true, List.length_append, Nat.add_sub_cancel]
  exact List.take_left x strTexturesSlash

/-- The folder string of lines 94-110 in its three shapes. -/
theorem RelativeTexturePath_cases (P : FString) :
    (EndsWith P strTextures = true ∧ RelativeTexturePath P = P) ∨
    (EndsWith P strTextures = false ∧ P ≠ [] ∧ endsInSlash P = false ∧
      RelativeTexturePath P = (P ++ ['/']) ++ strTexturesSlash) ∨
    (EndsWith P strTextures = false ∧ (P = [] ∨ endsInSlash P = true) ∧
      RelativeTexturePath P = P ++ strTexturesSlash) := by
  cases h : EndsWith P strTextures with
  | true => left; simp [RelativeTexturePath, h]
  | false =>
    right
    by_cases hP : P = []
    · right
      subst hP
      refine ⟨rfl, Or.inl rfl, ?_⟩
      simp [RelativeTexturePath, h, Combine_nil_left]
    · cases hs : endsInSlash P with
      | true =>
        right
        refine ⟨rfl, Or.inr rfl, ?_⟩
        simp [RelativeTexturePath, h, Combine_after_slash _ _ hs]
      | false =>
        left
        refine ⟨rfl, hP, rfl, ?_⟩
        have hc : ('_' : Char) ≠ '/' := by decide
        simp only [RelativeTexturePath, h, Bool.not_false, if_true, strTexturesSlash]
        rw [Combine_insert P '_' _ hP hs hc]
        simp

theorem endsInSlash_append_strTexturesSlash (Q : FString) :
    endsInSlash (Q ++ strTexturesSlash) = true := by
  have h : Q ++ strTexturesSlash = (Q ++ strTextures) ++ ['/'] := by
    simp [strTexturesSlash, strTextures]
  rw [h, endsInSlash_concat]
  rfl

theorem PrefixedName_head (N : FString) :
    ∃ c r, PrefixedName N = c :: '_' :: r ∧ c ≠ '/' := by
  have h := (StartsWith_strT_iff _).1 (StartsWith_PrefixedName N)
  generalize PrefixedName N = M at h
  match M with
  | [] => simp at h
  | [a] => simp at h
  | a :: b :: r =>
    simp only [List.take_succ_cons, List.take_zero, List.cons.injEq, and_true] at h
    refine ⟨a, r, ?_, ?_⟩
    · rcases h with ⟨-, h2⟩ | ⟨-, h2⟩ <;> rw [h2]
    · rcases h with ⟨h1, -⟩ | ⟨h1, -⟩ <;> rw [h1] <;> decide

/-- The rename target of line 124 in its three shapes. -/
theorem DestinationPath_cases (P N : FString) :
    (EndsWith P strTextures = true ∧ DestinationPath P N = P ++ '/' :: PrefixedName N) ∨
    (EndsWith P strTextures = false ∧ P ≠ [] ∧ endsInSlash P = false ∧
      DestinationPath P N = ((P ++ ['/']) ++ strTextures) ++ '/' :: PrefixedName N) ∨
    (EndsWith P strTextures = false ∧ (P = [] ∨ endsInSlash P = true) ∧
      DestinationPath P N = (P ++ strTextures) ++ '/' :: PrefixedName N) := by
  obtain ⟨c, r, hN, hc⟩ := PrefixedName_head N
  have hsplit : ∀ Q : FString, (Q ++ strTexturesSlash) ++ PrefixedName N
      = (Q ++ strTextures) ++ '/' :: PrefixedName N := by
    intro Q
    simp [strTexturesSlash, strTextures]
  rcases RelativeTexturePath_cases P with ⟨h, hR⟩ | ⟨h, hP, hs, hR⟩ | ⟨h, hP, hR⟩
  · left
    refine ⟨h, ?_⟩
    rw [DestinationPath, hR, hN,
      Combine_insert P c _ (EndsWith_strTextures_ne_nil P h)
        (EndsWith_strTextures_endsInSlash P h) hc]
  · right; left
    refine ⟨h, hP, hs, ?_⟩
    rw [DestinationPath, hR, Combine_after_slash _ _ (endsInSlash_append_strTexturesSlash _),
      hsplit]
  · right; right
    refine ⟨h, hP, ?_⟩
    rw [DestinationPath, hR, Combine_after_slash _ _ (endsInSlash_append_strTexturesSlash _),
      hsplit]

/-! ## Token parsing (claims C1, C2, C9) -/

/-- C2, as the code has it: the prefix test ignores letter case, so the name used is the
object name itself when that begins with `T_` or `t_`, and `T_` followed by the object
name otherwise; the name used therefore always begins with `T_` or `t_`. -/
theorem prefixed_name_ignores_case (N : FString) :
    PrefixedName N
        = (if N.take 2 = ['T', '_'] ∨ N.take 2 = ['t', '_'] then N else 'T' :: '_' :: N) ∧
      ((PrefixedName N).take 2 = ['T', '_'] ∨ (PrefixedName N).take 2 = ['t', '_']) := by
  refine ⟨?_, (StartsWith_strT_iff _).1 (StartsWith_PrefixedName N)⟩
  unfold PrefixedName
  by_cases h : StartsWith N strT = true
  · have h2 := (StartsWith_strT_iff N).1 h
    simp [h, h2]
  · have h2 : ¬ (N.take 2 = ['T', '_'] ∨ N.take 2 = ['t', '_']) :=
      fun e => h ((StartsWith_strT_iff N).2 e)
    simp only [h, h2, if_false, Bool.not_eq_true]
    simp [strT]

/-- C2 fails as stated: the object name `t_Wood_Albedo` does not start with `T_`, yet it
is used unchanged, so the name used is not `T_t_Wood_Albedo` and does not start with `T_`. -/
theorem prefixed_name_lowercase_kept :
    "t_Wood_Albedo".toList.take 2 ≠ "T_".toList ∧
      PrefixedName "t_Wood_Albedo".toList = "t_Wood_Albedo".toList ∧
      PrefixedName "t_Wood_Albedo".toList ≠ "T_".toList ++ "t_Wood_Albedo".toList ∧
      (PrefixedName "t_Wood_Albedo".toList).take 2 ≠ "T_".toList := by
  decide

/-- C9 fails on the code: the object name `T_` parses into the single token `T`, index 1
is out of range, and the loop body faults right after marking the texture transactional;
the names `_` and the empty name parse into one token as well. -/
theorem token_index_one_out_of_range :
    ObjectNameArray "T_".toList = ["T".toList] ∧
      (ObjectNameArray "T_".toList).length < 2 ∧
      (ObjectNameArray "_".toList).length < 2 ∧
      (ObjectNameArray []).length < 2 ∧
      MaterialInstanceName "T_".toList = none ∧
      ∀ (eng : Engine) (hist : List Action),
        processAsset eng hist (sampleTexture "/Game/Foo".toList "T_".toList)
          = ([Action.SetFlagsTransactional "/Game/Foo/T_".toList], Outcome.crashed) := by
  refine ⟨by decide, by decide, by decide, by decide, by decide, ?_⟩
  intro eng hist
  have h : MaterialInstanceName (sampleTexture "/Game/Foo".toList "T_".toList).AssetName = none := by
    decide
  simp only [processAsset, h]
  rfl

/-! ## The rename target is a fixed point (claim C10) -/

theorem splitLast_none (p : Char → Bool) (b : FString) (h : ∀ c ∈ b, p c = false) :
    splitLast p b = none := by
  induction b with
  | nil => rfl
  | cons c cs ih =>
    have h1 : p c = false := h c (by simp)
    have h2 : ∀ d ∈ cs, p d = false := fun d hd => h d (by simp [hd])
    simp [splitLast, ih h2, h1]

theorem splitLast_append (p : Char → Bool) (a b : FString) (x : Char) (hx : p x = true)
    (h : ∀ c ∈ b, p c = false) : splitLast p (a ++ x :: b) = some (a, b) := by
  induction a with
  | nil => simp [splitLast, splitLast_none p b h, hx]
  | cons c cs ih => simp [splitLast, ih]

theorem package_split (A M : FString) (hM : '/' ∉ M) :
    GetLongPackagePath (A ++ '/' :: M) = A ∧ GetShortName (A ++ '/' :: M) = M := by
  have h : splitLast (fun c => c == '/') (A ++ '/' :: M) = some (A, M) := by
    apply splitLast_append
    · rfl
    · intro c hc
      have : c ≠ '/' := fun e => hM (e ▸ hc)
      simp [this]
  simp [GetLongPackagePath, GetShortName, h]

theorem PrefixedName_no_slash (N : FString) (hN : '/' ∉ N) : '/' ∉ PrefixedName N := by
  unfold PrefixedName
  split
  · simp only [strT, List.cons_append, List.nil_append, List.mem_cons, not_or]
    exact ⟨by decide, by decide, hN⟩
  · exact hN

theorem DestinationPath_shape (P N : FString) :
    ∃ A, EndsWith A strTextures = true ∧ DestinationPath P N = A ++ '/' :: PrefixedName N := by
  rcases DestinationPath_cases P N with ⟨h, hD⟩ | ⟨-, -, -, hD⟩ | ⟨-, -, hD⟩
  · exact ⟨P, h, hD⟩
  · exact ⟨_, EndsWith_append _ strTextures strTextures rfl (by decide), hD⟩
  · exact ⟨_, EndsWith_append _ strTextures strTextures rfl (by decide), hD⟩

theorem DestinationPath_in_textures (A M : FString) (h : EndsWith A strTextures = true) :
    DestinationPath A M = A ++ '/' :: PrefixedName M := by
  rcases DestinationPath_cases A M with ⟨-, hD⟩ | ⟨h2, -⟩ | ⟨h2, -⟩
  · exact hD
  · rw [h] at h2; contradiction
  · rw [h] at h2; contradiction

theorem DestinationPath_fixed (P N : FString) (hN : '/' ∉ N) :
    DestinationPath (GetLongPackagePath (DestinationPath P N))
      (GetShortName (DestinationPath P N)) = DestinationPath P N := by
  obtain ⟨A, hA, hD⟩ := DestinationPath_shape P N
  obtain ⟨h1, h2⟩ := package_split A (PrefixedName N) (PrefixedName_no_slash N hN)
  rw [hD, h1, h2, DestinationPath_in_textures A _ hA, PrefixedName_idem]

theorem Stricmp_self (s : FString) : Stricmp s s = true := by
  simp [Stricmp]

/-! ## The search loop -/

theorem findParameter_no_match (eng : Engine) (hist : List Action) (asset : FAssetData)
    (mi master : UObject) (suffix : FString) (names : List FString)
    (h : ∀ p ∈ names, Stricmp suffix p = false) :
    findParameter eng hist asset mi master suffix names = ([], some false) := by
  induction names with
  | nil => rfl
  | cons p ps ih =>
    have h1 : Stricmp suffix p = false := h p (by simp)
    have h2 : ∀ q ∈ ps, Stricmp suffix q = false := fun q hq => h q (by simp [hq])
    simp [findParameter, h1, ih h2]

theorem findParameter_skip (eng : Engine) (hist : List Action) (asset : FAssetData)
    (mi master : UObject) (suffix : FString) (pre rest : List FString)
    (h : ∀ p ∈ pre, Stricmp suffix p = false) :
    findParameter eng hist asset mi master suffix (pre ++ rest)
      = findParameter eng hist asset mi master suffix rest := by
  induction pre with
  | nil => rfl
  | cons p ps ih =>
    have h1 : Stricmp suffix p = false := h p (by simp)
    have h2 : ∀ q ∈ ps, Stricmp suffix q = false := fun q hq => h q (by simp [hq])
    simp [findParameter, h1, ih h2]

theorem findParameter_set (eng : Engine) (hist : List Action) (asset : FAssetData)
    (mi master : UObject) (suffix : FString) (names : List FString)
    (m q t : FString)
    (h : Action.SetTextureParameterValueEditorOnly m q t
      ∈ (findParameter eng hist asset mi master suffix names).1) :
    m = mi.PackagePathName ∧ t = asset.PackageName ∧
      ∃ pre post, names = pre ++ q :: post ∧ (∀ r ∈ pre, Stricmp suffix r = false) ∧
        Stricmp suffix q = true := by
  induction names with
  | nil => simp [findParameter] at h
  | cons p ps ih =>
    cases hp : Stricmp suffix p with
    | false =>
      simp only [findParameter, hp] at h
      obtain ⟨h1, h2, pre, post, h3, h4, h5⟩ := ih h
      refine ⟨h1, h2, p :: pre, post, by simp [h3], ?_, h5⟩
      intro r hr
      rcases List.mem_cons.1 hr with rfl | hr
      · exact hp
      · exact h4 r hr
    | true =>
      simp only [findParameter, hp, if_true] at h
      split at h
      · split at h
        · simp at h
        · simp only [List.mem_cons, List.mem_singleton, Action.SetTextureParameterValueEditorOnly.injEq,
            List.not_mem_nil, or_false] at h
          rcases h with h | h | h
          · cases h
          · cases h
          · obtain ⟨rfl, rfl, rfl⟩ := h
            exact ⟨rfl, rfl, [], ps, rfl, by simp, hp⟩
      · simp at h

theorem findParameter_mem (eng : Engine) (hist : List Action) (asset : FAssetData)
    (mi master : UObject) (suffix : FString) (names : List FString) (x : Action)
    (h : x ∈ (findParameter eng hist asset mi master suffix names).1) :
    (∃ v m, x = Action.UE_LOG v m) ∨ (∃ v, x = Action.SetSRGB asset.PackageName v) ∨
      (∃ q, x = Action.SetTextureParameterValueEditorOnly mi.PackagePathName q
        asset.PackageName) := by
  induction names with
  | nil => simp [findParameter] at h
  | cons p ps ih =>
    cases hp : Stricmp suffix p with
    | false =>
      simp only [findParameter, hp] at h
      exact ih h
    | true =>
      simp only [findParameter, hp, if_true] at h
      split at h
      · split at h
        · simp only [List.mem_singleton] at h
          exact Or.inl ⟨_, _, h⟩
        · simp only [List.mem_cons, List.not_mem_nil, or_false] at h
          rcases h with h | h | h
          · exact Or.inl ⟨_, _, h⟩
          · exact Or.inr (Or.inl ⟨_, h⟩)
          · exact Or.inr (Or.inr ⟨_, h⟩)
      · simp at h

theorem bindTexture_mem (eng : Engine) (hist : List Action) (asset : FAssetData)
    (mi master : UObject) (suffix : FString) (x : Action)
    (h : x ∈ (bindTexture eng hist asset mi master suffix).1) :
    (∃ v m, x = Action.UE_LOG v m) ∨ (∃ v, x = Action.SetSRGB asset.PackageName v) ∨
      (∃ q, x = Action.SetTextureParameterValueEditorOnly mi.PackagePathName q
        asset.PackageName) := by
  unfold bindTexture at h
  simp only at h
  split at h
  · next e he => exact findParameter_mem eng hist asset mi master suffix _ x (by rw [he]; exact h)
  · next e he => exact findParameter_mem eng hist asset mi master suffix _ x (by rw [he]; exact h)
  · next e he =>
    simp only [List.mem_append, List.mem_singleton] at h
    rcases h with h | h
    · exact findParameter_mem eng hist asset mi master suffix _ x (by rw [he]; exact h)
    · exact Or.inl ⟨_, _, h⟩

theorem bindTexture_no_match (eng : Engine) (hist : List Action) (asset : FAssetData)
    (mi master : UObject) (suffix : FString)
    (h : ∀ p ∈ eng.GetAllTextureParameterInfo hist mi, Stricmp suffix p = false) :
    bindTexture eng hist asset mi master suffix
      = ([Action.UE_LOG Verbosity.Error (msgNoSuffix (eng.GetAllTextureParameterInfo hist mi))],
         some false) := by
  simp [bindTexture, findParameter_no_match eng hist asset mi master suffix _ h]

theorem bindTexture_set (eng : Engine) (hist : List Action) (asset : FAssetData)
    (mi master : UObject) (suffix m q t : FString)
    (h : Action.SetTextureParameterValueEditorOnly m q t
      ∈ (bindTexture eng hist asset mi master suffix).1) :
    m = mi.PackagePathName ∧ t = asset.PackageName ∧
      ∃ pre post, eng.GetAllTextureParameterInfo hist mi = pre ++ q :: post ∧
        (∀ r ∈ pre, Stricmp suffix r = false) ∧ Stricmp suffix q = true := by
  unfold bindTexture at h
  simp only at h
  split at h
  · next e he => exact findParameter_set eng hist asset mi master suffix _ m q t (by rw [he]; exact h)
  · next e he => exact findParameter_set eng hist asset mi master suffix _ m q t (by rw [he]; exact h)
  · next e he =>
    simp only [List.mem_append, List.mem_singleton] at h
    rcases h with h | h
    · exact findParameter_set eng hist asset mi master suffix _ m q t (by rw [he]; exact h)
    · cases h

theorem bindTexture_first_match (eng : Engine) (hist : List Action) (asset : FAssetData)
    (mi master : UObject) (suffix : FString) (pre post : List FString) (p : FString) (v : Bool)
    (hnames : eng.GetAllTextureParameterInfo hist mi = pre ++ p :: post)
    (hpre : ∀ q ∈ pre, Stricmp suffix q = false) (hp : Stricmp suffix p = true)
    (htex : IsTexture2D asset = true)
    (hv : eng.GetTextureParameterValue hist master p = some v) :
    bindTexture eng hist asset mi master suffix
      = ([Action.UE_LOG Verbosity.Log (msgSettingSRGB asset.AssetName),
          Action.SetSRGB asset.PackageName v,
          Action.SetTextureParameterValueEditorOnly mi.PackagePathName p asset.PackageName],
         some true) := by
  simp [bindTexture, hnames, findParameter_skip eng hist asset mi master suffix pre _ hpre,
    findParameter, hp, htex, hv]

/-! ## Parameter binding (claim C5) -/

/-- C5, as the code has it: the suffix is compared with the parameter names ignoring
letter case.  When no parameter name matches, nothing is set and the error listing the
available names is logged; when the texture is a `UTexture2D` and the master material has
a texture for the first matching parameter, the texture is bound to that parameter and to
no other; and whenever a texture parameter is set, it is the first parameter whose name
matches the suffix, on this material instance, with this texture. -/
theorem bind_first_parameter_matching_suffix (eng : Engine) (hist : List Action)
    (asset : FAssetData) (mi master : UObject) (suffix : FString) :
    ((∀ p ∈ eng.GetAllTextureParameterInfo hist mi, Stricmp suffix p = false) →
      bindTexture eng hist asset mi master suffix
        = ([Action.UE_LOG Verbosity.Error
              (msgNoSuffix (eng.GetAllTextureParameterInfo hist mi))], some false)) ∧
    (∀ (pre post : List FString) (p : FString) (v : Bool),
      eng.GetAllTextureParameterInfo hist mi = pre ++ p :: post →
      (∀ q ∈ pre, Stricmp suffix q = false) → Stricmp suffix p = true →
      IsTexture2D asset = true → eng.GetTextureParameterValue hist master p = some v →
      bindTexture eng hist asset mi master suffix
        = ([Action.UE_LOG Verbosity.Log (msgSettingSRGB asset.AssetName),
            Action.SetSRGB asset.PackageName v,
            Action.SetTextureParameterValueEditorOnly mi.PackagePathName p asset.PackageName],
           some true)) ∧
    (∀ m q t : FString,
      Action.SetTextureParameterValueEditorOnly m q t
        ∈ (bindTexture eng hist asset mi master suffix).1 →
      m = mi.PackagePathName ∧ t = asset.PackageName ∧
        ∃ pre post, eng.GetAllTextureParameterInfo hist mi = pre ++ q :: post ∧
          (∀ r ∈ pre, Stricmp suffix r = false) ∧ Stricmp suffix q = true) :=
  ⟨bindTexture_no_match eng hist asset mi master suffix,
   fun pre post p v h1 h2 h3 h4 h5 =>
     bindTexture_first_match eng hist asset mi master suffix pre post p v h1 h2 h3 h4 h5,
   fun m q t h => bindTexture_set eng hist asset mi master suffix m q t h⟩

/-- Witness for C5: with the parameters `Normal`, `Albedo`, `albedo` and the suffix
`ALBEDO`, the texture is bound to `Albedo`, the first name matching up to letter case. -/
theorem bind_first_parameter_matching_suffix_witness :
    bindTexture (sampleEngine ["Normal".toList, "Albedo".toList, "albedo".toList]) []
        (sampleTexture "/Game/Foo".toList "T_Wood_ALBEDO".toList)
        (sampleInstance "/Game/Foo/MI_Wood".toList) sampleMaster "ALBEDO".toList
      = ([Action.UE_LOG Verbosity.Log (msgSettingSRGB "T_Wood_ALBEDO".toList),
          Action.SetSRGB "/Game/Foo/T_Wood_ALBEDO".toList true,
          Action.SetTextureParameterValueEditorOnly "/Game/Foo/MI_Wood".toList
            "Albedo".toList "/Game/Foo/T_Wood_ALBEDO".toList],
         some true) :=
  (bind_first_parameter_matching_suffix
    (sampleEngine ["Normal".toList, "Albedo".toList, "albedo".toList]) []
    (sampleTexture "/Game/Foo".toList "T_Wood_ALBEDO".toList)
    (sampleInstance "/Game/Foo/MI_Wood".toList) sampleMaster "ALBEDO".toList).2.1
    ["Normal".toList] ["albedo".toList] "Albedo".toList true rfl (by decide) (by decide)
    (by decide) rfl

/-- C5 fails as stated: the texture `T_Wood_albedo` has the suffix `albedo`, the material
instance has the single parameter `Albedo`, no parameter name equals the suffix character
for character, and yet the texture is bound to `Albedo`. -/
theorem bind_despite_different_case :
    ParameterSuffix "T_Wood_albedo".toList = some "albedo".toList ∧
      "albedo".toList ∉ ["Albedo".toList] ∧
      Action.SetTextureParameterValueEditorOnly "/Game/Foo/MI_Wood".toList "Albedo".toList
          "/Game/Foo/T_Wood_albedo".toList
        ∈ (processAsset (sampleEngine ["Albedo".toList]) []
            (sampleTexture "/Game/Foo".toList "T_Wood_albedo".toList)).1 := by
  decide

/-! ## The loop body -/

theorem renameStep_mem (src dst : FString) (x : Action) (h : x ∈ renameStep src dst) :
    x = Action.RenameAsset src dst ∧ Stricmp src dst = false := by
  unfold renameStep at h
  split at h
  · next hc =>
    simp only [List.mem_singleton] at h
    simp only [Bool.not_eq_true', ] at hc
    exact ⟨h, hc⟩
  · simp at h

theorem loadOrCreate_mem (eng : Engine) (hist : List Action) (n p : FString) (x : Action)
    (h : x ∈ (loadOrCreate eng hist n p).1) :
    x = Action.LoadAsset p ∨ x = Action.CreateAsset n (GetPath p) ∨
      (∃ o, x = Action.SetFlagsTransactional o) ∨ (∃ v m, x = Action.UE_LOG v m) ∨
      (∃ q, x = Action.SaveAsset q) := by
  unfold loadOrCreate at h
  simp only at h
  split at h
  · simp only [List.mem_singleton] at h
    exact Or.inl h
  · split at h
    · simp only [List.mem_append, List.mem_singleton] at h
      rcases h with h | h
      · exact Or.inl h
      · exact Or.inr (Or.inl h)
    · simp only [List.mem_append, List.mem_singleton, List.mem_cons, List.not_mem_nil,
        or_false] at h
      rcases h with (h | h) | h | h | h
      · exact Or.inl h
      · exact Or.inr (Or.inl h)
      · exact Or.inr (Or.inr (Or.inl ⟨_, h⟩))
      · exact Or.inr (Or.inr (Or.inr (Or.inl ⟨_, _, h⟩)))
      · exact Or.inr (Or.inr (Or.inr (Or.inr ⟨_, h⟩)))

theorem loadOrCreate_head (eng : Engine) (hist : List Action) (n p : FString) :
    Action.LoadAsset p ∈ (loadOrCreate eng hist n p).1 := by
  unfold loadOrCreate
  simp only
  split
  · simp
  · split <;> simp

theorem loadOrCreate_unavailable (eng : Engine) (hist : List Action) (n p : FString)
    (hl : CastMaterialInstanceConstant (eng.LoadAsset hist p) = none)
    (hc : CastMaterialInstanceConstant
      (eng.CreateAsset (hist ++ [Action.LoadAsset p]) n (GetPath p)) = none) :
    loadOrCreate eng hist n p
      = ([Action.LoadAsset p, Action.CreateAsset n (GetPath p)], none) := by
  simp [loadOrCreate, hl, hc]

/-- What the tail of the loop body (lines 170-232) can do. -/
theorem afterInstance_mem (eng : Engine) (hist : List Action) (asset : FAssetData)
    (suffix : FString) (mi : Option UObject) (x : Action)
    (h : x ∈ (afterInstance eng hist asset suffix mi).1) :
    x = Action.LoadAsset strMasterPath ∨ (∃ v m, x = Action.UE_LOG v m) ∨
      (∃ m, x = Action.SetParentEditorOnly m) ∨
      (∃ v, x = Action.SetSRGB asset.PackageName v) ∨
      (∃ m q, x = Action.SetTextureParameterValueEditorOnly m q asset.PackageName) ∨
      (x = Action.RenameAsset asset.PackageName
            (DestinationPath asset.PackagePath asset.AssetName) ∧
        Stricmp asset.PackageName (DestinationPath asset.PackagePath asset.AssetName) = false ∧
        (afterInstance eng hist asset suffix mi).2 = Outcome.completed) := by
  have hb : ∀ (h' : List Action) (m ms : UObject),
      x ∈ (bindTexture eng h' asset m ms suffix).1 →
      (∃ v m, x = Action.UE_LOG v m) ∨ (∃ v, x = Action.SetSRGB asset.PackageName v) ∨
      (∃ m q, x = Action.SetTextureParameterValueEditorOnly m q asset.PackageName) := by
    intro h' m ms hx
    rcases bindTexture_mem eng h' asset m ms suffix x hx with h1 | h1 | ⟨q, h1⟩
    · exact Or.inl h1
    · exact Or.inr (Or.inl h1)
    · exact Or.inr (Or.inr ⟨_, q, h1⟩)
  have hp : ∀ (c : Bool) (m : FString),
      x ∈ (if c then [Action.SetParentEditorOnly m] else []) →
      ∃ m, x = Action.SetParentEditorOnly m := by
    intro c m hx
    split at hx
    · exact ⟨m, by simpa using hx⟩
    · simp at hx
  unfold afterInstance at h ⊢
  simp only at h ⊢
  split at h
  · simp only [List.mem_append, List.mem_singleton] at h
    rcases h with h | h
    · exact Or.inl h
    · exact Or.inr (Or.inl ⟨_, _, h⟩)
  · split at h
    · simp only [List.mem_append, List.mem_singleton] at h
      rcases h with h | h
      · exact Or.inl h
      · exact Or.inr (Or.inl ⟨_, _, h⟩)
    · split at h
      · next e2 he =>
        simp only [List.mem_append, List.mem_singleton] at h
        rcases h with (h | h) | h
        · exact Or.inl h
        · exact Or.inr (Or.inr (Or.inl (hp _ _ h)))
        · rcases hb _ _ _ (by rw [he]; exact h) with h1 | h1 | h1
          · exact Or.inr (Or.inl h1)
          · exact Or.inr (Or.inr (Or.inr (Or.inl h1)))
          · exact Or.inr (Or.inr (Or.inr (Or.inr (Or.inl h1))))
      · next e2 b he =>
        simp only [List.mem_append, List.mem_singleton] at h
        rcases h with ((h | h) | h) | h
        · exact Or.inl h
        · exact Or.inr (Or.inr (Or.inl (hp _ _ h)))
        · rcases hb _ _ _ (by rw [he]; exact h) with h1 | h1 | h1
          · exact Or.inr (Or.inl h1)
          · exact Or.inr (Or.inr (Or.inr (Or.inl h1)))
          · exact Or.inr (Or.inr (Or.inr (Or.inr (Or.inl h1))))
        · obtain ⟨h1, h2⟩ := renameStep_mem _ _ x h
          refine Or.inr (Or.inr (Or.inr (Or.inr (Or.inr ⟨h1, h2, ?_⟩))))
          simp [he]

/-- What the loop body can do for one asset. -/
theorem processAsset_mem (eng : Engine) (hist : List Action) (asset : FAssetData) (x : Action)
    (h : x ∈ (processAsset eng hist asset).1) :
    (∃ o, x = Action.SetFlagsTransactional o) ∨
      (∃ n, MaterialInstanceName asset.AssetName = some n ∧
        (x = Action.LoadAsset (MaterialInstanceFilePath asset.PackagePath n) ∨
         x = Action.CreateAsset n (GetPath (MaterialInstanceFilePath asset.PackagePath n)))) ∨
      (∃ q, x = Action.SaveAsset q) ∨
      x = Action.LoadAsset strMasterPath ∨ (∃ v m, x = Action.UE_LOG v m) ∨
      (∃ m, x = Action.SetParentEditorOnly m) ∨
      (∃ v, x = Action.SetSRGB asset.PackageName v) ∨
      (∃ m q, x = Action.SetTextureParameterValueEditorOnly m q asset.PackageName) ∨
      (x = Action.RenameAsset asset.PackageName
            (DestinationPath asset.PackagePath asset.AssetName) ∧
        Stricmp asset.PackageName (DestinationPath asset.PackagePath asset.AssetName) = false ∧
        (processAsset eng hist asset).2 = Outcome.completed) := by
  have hl : ∀ (h' : List Action) (n : FString),
      MaterialInstanceName asset.AssetName = some n →
      x ∈ (loadOrCreate eng h' n (MaterialInstanceFilePath asset.PackagePath n)).1 →
      (∃ o, x = Action.SetFlagsTransactional o) ∨
      (∃ n, MaterialInstanceName asset.AssetName = some n ∧
        (x = Action.LoadAsset (MaterialInstanceFilePath asset.PackagePath n) ∨
         x = Action.CreateAsset n (GetPath (MaterialInstanceFilePath asset.PackagePath n)))) ∨
      (∃ q, x = Action.SaveAsset q) ∨
      x = Action.LoadAsset strMasterPath ∨ (∃ v m, x = Action.UE_LOG v m) ∨
      (∃ m, x = Action.SetParentEditorOnly m) ∨
      (∃ v, x = Action.SetSRGB asset.PackageName v) ∨
      (∃ m q, x = Action.SetTextureParameterValueEditorOnly m q asset.PackageName) ∨
      (x = Action.RenameAsset asset.PackageName
            (DestinationPath asset.PackagePath asset.AssetName) ∧
        Stricmp asset.PackageName (DestinationPath asset.PackagePath asset.AssetName) = false ∧
        (processAsset eng hist asset).2 = Outcome.completed) := by
    intro h' n hn hx
    rcases loadOrCreate_mem eng h' n _ x hx with h1 | h1 | h1 | h1 | h1
    · exact Or.inr (Or.inl ⟨n, hn, Or.inl h1⟩)
    · exact Or.inr (Or.inl ⟨n, hn, Or.inr h1⟩)
    · exact Or.inl h1
    · exact Or.inr (Or.inr (Or.inr (Or.inr (Or.inl h1))))
    · exact Or.inr (Or.inr (Or.inl h1))
  unfold processAsset at h
  simp only at h
  split at h
  · next n suffix hn hs =>
    split at h
    · next e1 he =>
      simp only [List.mem_append, List.mem_singleton] at h
      rcases h with h | h
      · exact Or.inl ⟨_, h⟩
      · exact hl _ n hn (by rw [he]; exact h)
    · next e1 mi he =>
      simp only [List.mem_append, List.mem_singleton] at h
      rcases h with (h | h) | h
      · exact Or.inl ⟨_, h⟩
      · exact hl _ n hn (by rw [he]; exact h)
      · rcases afterInstance_mem eng _ asset suffix mi x h with
          h1 | h1 | h1 | h1 | h1 | ⟨h1, h2, h3⟩
        · exact Or.inr (Or.inr (Or.inr (Or.inl h1)))
        · exact Or.inr (Or.inr (Or.inr (Or.inr (Or.inl h1))))
        · exact Or.inr (Or.inr (Or.inr (Or.inr (Or.inr (Or.inl h1)))))
        · exact Or.inr (Or.inr (Or.inr (Or.inr (Or.inr (Or.inr (Or.inl h1))))))
        · exact Or.inr (Or.inr (Or.inr (Or.inr (Or.inr (Or.inr (Or.inr (Or.inl h1)))))))
        · refine Or.inr (Or.inr (Or.inr (Or.inr (Or.inr (Or.inr (Or.inr (Or.inr
            ⟨h1, h2, ?_⟩)))))))
          simp only [processAsset, hn, hs, he]
          exact h3
  · simp only [List.mem_singleton] at h
    exact Or.inl ⟨_, h⟩

theorem afterInstance_completed (eng : Engine) (hist : List Action) (asset : FAssetData)
    (suffix : FString) (mi : Option UObject)
    (h : (afterInstance eng hist asset suffix mi).2 = Outcome.completed) :
    ∃ pre, (afterInstance eng hist asset suffix mi).1
      = pre ++ renameStep asset.PackageName
          (DestinationPath asset.PackagePath asset.AssetName) := by
  unfold afterInstance at h ⊢
  simp only at h ⊢
  split
  · next hm => simp [hm] at h
  · next master hm =>
    split
    · simp [hm] at h
    · next m =>
      split
      · next e2 he =>
        simp only [hm] at h
        rw [he] at h
        exact absurd (show Outcome.crashed = Outcome.completed from h) (by decide)
      · next e2 b he => exact ⟨_, rfl⟩

/-- When the loop body runs to its end, the rename step of lines 229-232 is the last
thing it does. -/
theorem processAsset_completed (eng : Engine) (hist : List Action) (asset : FAssetData)
    (h : (processAsset eng hist asset).2 = Outcome.completed) :
    ∃ pre, (processAsset eng hist asset).1
      = pre ++ renameStep asset.PackageName
          (DestinationPath asset.PackagePath asset.AssetName) := by
  unfold processAsset at h ⊢
  simp only at h ⊢
  split
  · next n suffix hn hs =>
    split
    · next e1 he => simp [hn, hs, he] at h
    · next e1 mi he =>
      simp only [hn, hs, he] at h
      obtain ⟨pre, hpre⟩ := afterInstance_completed eng _ asset suffix mi h
      exact ⟨_, by rw [hpre, ← List.append_assoc]⟩
  · next hx =>
    exfalso
    split at h
    · next n suffix hn hs => exact hx n suffix hn hs
    · simp at h

theorem batch_cons_stop (eng : Engine) (hist : List Action) (asset : FAssetData)
    (rest : List FAssetData) (h : (processAsset eng hist asset).2 ≠ Outcome.completed) :
    SetTexturesToMaterialInstance eng hist (asset :: rest)
      = (hist ++ (processAsset eng hist asset).1, (processAsset eng hist asset).2) := by
  unfold SetTexturesToMaterialInstance
  split
  · next e he => simp [he] at h
  · next e o hne he => simp [he]

theorem batch_append (eng : Engine) (pre rest : List FAssetData) (hist : List Action) :
    SetTexturesToMaterialInstance eng hist (pre ++ rest)
      = (if (SetTexturesToMaterialInstance eng hist pre).2 = Outcome.completed then
          SetTexturesToMaterialInstance eng (SetTexturesToMaterialInstance eng hist pre).1 rest
        else SetTexturesToMaterialInstance eng hist pre) := by
  induction pre generalizing hist with
  | nil => simp [SetTexturesToMaterialInstance]
  | cons a as ih =>
    simp only [List.cons_append, SetTexturesToMaterialInstance]
    split
    · next e he => exact ih _
    · next e o hne he => rw [if_neg hne]

theorem ParameterSuffix_of_name (N n : FString) (h : MaterialInstanceName N = some n) :
    ∃ s, ParameterSuffix N = some s := by
  unfold MaterialInstanceName at h
  unfold ParameterSuffix
  cases hl : ObjectNameArray N with
  | nil => simp [hl] at h
  | cons t ts => exact ⟨_, List.getLast?_eq_getLast _ (List.cons_ne_nil t ts)⟩

theorem processAsset_load (eng : Engine) (hist : List Action) (asset : FAssetData)
    (n : FString) (hn : MaterialInstanceName asset.AssetName = some n) :
    Action.LoadAsset (MaterialInstanceFilePath asset.PackagePath n)
      ∈ (processAsset eng hist asset).1 := by
  obtain ⟨s, hs⟩ := ParameterSuffix_of_name _ _ hn
  have hh := loadOrCreate_head eng (hist ++ [Action.SetFlagsTransactional asset.PackageName]) n
    (MaterialInstanceFilePath asset.PackagePath n)
  unfold processAsset
  simp only [hn, hs]
  split
  · next e1 he =>
    rw [he] at hh
    exact List.mem_append_right _ hh
  · next e1 mi he =>
    rw [he] at hh
    exact List.mem_append_left _ (List.mem_append_right _ hh)

/-! ## Where the material instance is looked up (claim C3) -/

theorem MaterialInstanceFilePath_in_textures (P n : FString)
    (h : EndsWith P strTextures = true) : MaterialInstanceFilePath P n = P ++ n := by
  have h1 : RelativeTexturePath P = P := by simp [RelativeTexturePath, h]
  simp [MaterialInstanceFilePath, h1, RemoveFromEnd, EndsWith_strTextures_not_slash P h]

/-- The half of C3 that holds: outside a `_Textures` folder the lookup path is
`P/MI_<Base>`. -/
theorem MaterialInstanceFilePath_outside_textures (P n : FString) (hP : P ≠ [])
    (hs : endsInSlash P = false) (h : EndsWith P strTextures = false) :
    MaterialInstanceFilePath P n = P ++ '/' :: n := by
  rcases RelativeTexturePath_cases P with ⟨h2, -⟩ | ⟨-, -, -, hR⟩ | ⟨-, h2 | h2, -⟩
  · rw [h] at h2; contradiction
  · rw [MaterialInstanceFilePath, hR, RemoveFromEnd_append]
    simp
  · exact absurd h2 hP
  · rw [hs] at h2; contradiction

/-- C3 fails on the code for a texture that already is in `_Textures`: the folder string
then has no trailing slash, `RemoveFromEnd("_Textures/")` removes nothing, and the
material instance is looked up at the folder string with the name glued on,
`F/_TexturesMI_<Base>`, for every folder `F`.  For `T_Wood_Albedo` in
`/Game/Foo/_Textures` every run loads `/Game/Foo/_TexturesMI_Wood` and never
`/Game/Foo/MI_Wood`, while the same texture in `/Game/Foo` is looked up at
`/Game/Foo/MI_Wood`, which is also where a missing instance is created. -/
theorem lookup_path_inside_textures_folder :
    (∀ F n : FString,
      MaterialInstanceFilePath (F ++ '/' :: strTextures) n = (F ++ '/' :: strTextures) ++ n) ∧
    MaterialInstanceName "T_Wood_Albedo".toList = some "MI_Wood".toList ∧
    MaterialInstanceFilePath "/Game/Foo/_Textures".toList "MI_Wood".toList
      = "/Game/Foo/_TexturesMI_Wood".toList ∧
    MaterialInstanceFilePath "/Game/Foo".toList "MI_Wood".toList = "/Game/Foo/MI_Wood".toList ∧
    GetPath (MaterialInstanceFilePath "/Game/Foo/_Textures".toList "MI_Wood".toList)
      = "/Game/Foo".toList ∧
    ∀ (eng : Engine) (hist : List Action),
      Action.LoadAsset "/Game/Foo/_TexturesMI_Wood".toList
        ∈ (processAsset eng hist
            (sampleTexture "/Game/Foo/_Textures".toList "T_Wood_Albedo".toList)).1 ∧
      Action.LoadAsset "/Game/Foo/MI_Wood".toList
        ∉ (processAsset eng hist
            (sampleTexture "/Game/Foo/_Textures".toList "T_Wood_Albedo".toList)).1 := by
  refine ⟨?_, by decide, by decide, by decide, by decide, ?_⟩
  · intro F n
    have h : EndsWith (F ++ '/' :: strTextures) strTextures = true := by
      have := EndsWith_append (F ++ ['/']) strTextures strTextures rfl (by decide)
      simpa using this
    rw [MaterialInstanceFilePath_in_textures _ n h]
  · intro eng hist
    have hn : MaterialInstanceName
        (sampleTexture "/Game/Foo/_Textures".toList "T_Wood_Albedo".toList).AssetName
        = some "MI_Wood".toList := by decide
    constructor
    · exact processAsset_load eng hist _ _ hn
    · intro hx
      rcases processAsset_mem eng hist _ _ hx with
        ⟨o, h⟩ | ⟨n, h1, h | h⟩ | ⟨q, h⟩ | h | ⟨v, m, h⟩ | ⟨m, h⟩ | ⟨v, h⟩ | ⟨m, q, h⟩ | ⟨h, -⟩
      · cases h
      · rw [hn] at h1
        injection h1 with h1
        subst h1
        injection h with h
        revert h
        decide
      · cases h
      · cases h
      · injection h with h
        revert h
        decide
      · cases h
      · cases h
      · cases h
      · cases h
      · cases h

/-! ## The rename target (claims C4, C10) -/

theorem ToLower_append (a b : FString) : ToLower (a ++ b) = ToLower a ++ ToLower b := by
  simp [ToLower]

theorem ToLower_no_slash (N : FString) (h : '/' ∉ N) : '/' ∉ ToLower N := by
  intro hm
  simp only [ToLower, List.mem_map] at hm
  obtain ⟨c, hc, hc2⟩ := hm
  rw [toLower_eq_slash] at hc2
  exact h (hc2 ▸ hc)

theorem source_differs_from_target (P N M : FString) (hN : '/' ∉ N) :
    Stricmp (P ++ '/' :: N) (P ++ '/' :: (strTexturesSlash ++ M)) = false := by
  simp only [Stricmp, decide_eq_false_iff_not]
  intro h
  rw [ToLower_append, ToLower_append, List.append_cancel_left_eq] at h
  have h1 : ToLower ('/' :: N) = '/' :: ToLower N := rfl
  have h2 : ToLower ('/' :: (strTexturesSlash ++ M))
      = '/' :: (ToLower strTextures ++ '/' :: ToLower M) := by
    simp [ToLower, strTexturesSlash, strTextures]
  rw [h1, h2] at h
  injection h with _ h
  apply ToLower_no_slash N hN
  rw [h]
  simp

/-- C4, as the code has it: for a texture whose package path `P` (non-empty, not ending
in a slash) does not end in `_Textures`, compared ignoring letter case, the rename target
is `P/_Textures/<prefixed name>`; when the loop body runs to its end and the package name
differs from the target, the last thing it does is rename the asset from its package
name to that target, and it issues no other rename; and the package name `P/<name>` of a
texture in `P` always differs from the target. -/
theorem rename_target_outside_textures (eng : Engine) (hist : List Action)
    (asset : FAssetData) (hP : asset.PackagePath ≠ [])
    (hs : endsInSlash asset.PackagePath = false)
    (hT : EndsWith asset.PackagePath strTextures = false) :
    DestinationPath asset.PackagePath asset.AssetName
      = asset.PackagePath ++ '/' :: (strTexturesSlash ++ PrefixedName asset.AssetName) ∧
    ((processAsset eng hist asset).2 = Outcome.completed →
      Stricmp asset.PackageName (DestinationPath asset.PackagePath asset.AssetName) = false →
      (processAsset eng hist asset).1.getLast?
        = some (Action.RenameAsset asset.PackageName
            (asset.PackagePath ++ '/' :: (strTexturesSlash ++ PrefixedName asset.AssetName))) ∧
      ∀ s d, Action.RenameAsset s d ∈ (processAsset eng hist asset).1 →
        s = asset.PackageName ∧
        d = asset.PackagePath ++ '/' :: (strTexturesSlash ++ PrefixedName asset.AssetName)) ∧
    (asset.PackageName = asset.PackagePath ++ '/' :: asset.AssetName →
      '/' ∉ asset.AssetName →
      Stricmp asset.PackageName (DestinationPath asset.PackagePath asset.AssetName) = false) := by
  have hD : DestinationPath asset.PackagePath asset.AssetName
      = asset.PackagePath ++ '/' :: (strTexturesSlash ++ PrefixedName asset.AssetName) := by
    rcases DestinationPath_cases asset.PackagePath asset.AssetName with
      ⟨h, -⟩ | ⟨-, -, -, hD⟩ | ⟨-, h | h, -⟩
    · rw [hT] at h; contradiction
    · rw [hD]
      simp [strTexturesSlash, strTextures]
    · exact absurd h hP
    · rw [hs] at h; contradiction
  refine ⟨hD, ?_, ?_⟩
  · intro hc hne
    constructor
    · obtain ⟨pre, hpre⟩ := processAsset_completed eng hist asset hc
      rw [hpre, ← hD]
      simp [renameStep, hne]
    · intro s d hx
      rcases processAsset_mem eng hist asset _ hx with
        ⟨o, h⟩ | ⟨n, h1, h | h⟩ | ⟨q, h⟩ | h | ⟨v, m, h⟩ | ⟨m, h⟩ | ⟨v, h⟩ | ⟨m, q, h⟩ | ⟨h, -⟩
      all_goals first
        | (injection h with h1 h2; exact ⟨h1, h2.trans hD⟩)
        | cases h
  · intro hname hN
    rw [hD, hname]
    exact source_differs_from_target _ _ _ hN

/-- Witness for C4: `Wood_Albedo` in `/Game/Foo` has the rename target
`/Game/Foo/_Textures/T_Wood_Albedo`. -/
theorem rename_target_outside_textures_witness :
    DestinationPath "/Game/Foo".toList "Wood_Albedo".toList
      = "/Game/Foo".toList ++ '/' :: (strTexturesSlash ++ PrefixedName "Wood_Albedo".toList) :=
  (rename_target_outside_textures (sampleEngine []) []
    (sampleTexture "/Game/Foo".toList "Wood_Albedo".toList)
    (by decide) (by decide) (by decide)).1

/-- C4 fails as stated: the folders `My_Textures` and `_textures` are not folders
literally named `_Textures`, yet a texture in them is treated as already placed and its
rename target stays in the folder instead of going to a `_Textures` folder below it. -/
theorem rename_target_in_folder_ending_in_textures :
    GetShortName "/Game/Foo/My_Textures".toList ≠ "_Textures".toList ∧
      DestinationPath "/Game/Foo/My_Textures".toList "T_Wood_Albedo".toList
        = "/Game/Foo/My_Textures/T_Wood_Albedo".toList ∧
      DestinationPath "/Game/Foo/My_Textures".toList "T_Wood_Albedo".toList
        ≠ "/Game/Foo/My_Textures/_Textures/T_Wood_Albedo".toList ∧
      GetShortName "/Game/Foo/_textures".toList ≠ "_Textures".toList ∧
      DestinationPath "/Game/Foo/_textures".toList "T_Wood_Albedo".toList
        = "/Game/Foo/_textures/T_Wood_Albedo".toList := by
  decide

/-- C10: the rename target is a fixed point.  For every package path `P` and object name
`N` (an object name holds no `/`), a texture stored at the target `D` computed for
`(P, N)` has the target `D` again, its source path equals its destination path, and no
run of the loop body on it issues a rename. -/
theorem rename_target_idempotent (P N : FString) (hN : '/' ∉ N) :
    DestinationPath (GetLongPackagePath (DestinationPath P N))
        (GetShortName (DestinationPath P N)) = DestinationPath P N ∧
      (textureAt (DestinationPath P N)).PackageName
        = DestinationPath (textureAt (DestinationPath P N)).PackagePath
            (textureAt (DestinationPath P N)).AssetName ∧
      ∀ (eng : Engine) (hist : List Action) (s d : FString),
        Action.RenameAsset s d
          ∉ (processAsset eng hist (textureAt (DestinationPath P N))).1 := by
  have hfix := DestinationPath_fixed P N hN
  refine ⟨hfix, hfix.symm, ?_⟩
  intro eng hist s d hx
  rcases processAsset_mem eng hist _ _ hx with
    ⟨o, h⟩ | ⟨n, h1, h | h⟩ | ⟨q, h⟩ | h | ⟨v, m, h⟩ | ⟨m, h⟩ | ⟨v, h⟩ | ⟨m, q, h⟩ | ⟨-, h, -⟩
  all_goals first
    | cases h
    | skip
  have h2 : (textureAt (DestinationPath P N)).PackageName
      = DestinationPath (textureAt (DestinationPath P N)).PackagePath
          (textureAt (DestinationPath P N)).AssetName := hfix.symm
  rw [← h2, Stricmp_self] at h
  cases h

/-- Witness for C10: `Wood_Albedo` in `/Game/Foo` is moved to
`/Game/Foo/_Textures/T_Wood_Albedo`, and from there to the same place. -/
theorem rename_target_idempotent_witness :
    DestinationPath (GetLongPackagePath (DestinationPath "/Game/Foo".toList "Wood_Albedo".toList))
        (GetShortName (DestinationPath "/Game/Foo".toList "Wood_Albedo".toList))
      = DestinationPath "/Game/Foo".toList "Wood_Albedo".toList :=
  (rename_target_idempotent "/Game/Foo".toList "Wood_Albedo".toList (by decide)).1

/-! ## No matching parameter (claim C6) -/

theorem loadOrCreate_loaded (eng : Engine) (hist : List Action) (n p : FString) (mi : UObject)
    (hl : CastMaterialInstanceConstant (eng.LoadAsset hist p) = some mi) :
    loadOrCreate eng hist n p = ([Action.LoadAsset p], some (some mi)) := by
  simp [loadOrCreate, hl]

theorem loadOrCreate_created (eng : Engine) (hist : List Action) (n p : FString) (mi : UObject)
    (hl : CastMaterialInstanceConstant (eng.LoadAsset hist p) = none)
    (hc : CastMaterialInstanceConstant
      (eng.CreateAsset (hist ++ [Action.LoadAsset p]) n (GetPath p)) = some mi) :
    loadOrCreate eng hist n p
      = ([Action.LoadAsset p, Action.CreateAsset n (GetPath p),
          Action.SetFlagsTransactional mi.PackagePathName,
          Action.UE_LOG Verbosity.Warning (msgCreating mi.Name),
          Action.SaveAsset mi.PackagePathName], some (some mi)) := by
  simp [loadOrCreate, hl, hc]

theorem afterInstance_no_match (eng : Engine) (hist : List Action) (asset : FAssetData)
    (suffix : FString) (mi master : UObject) (parent : List Action) (names : List FString)
    (hmaster : CastMaterialInterface (eng.LoadAsset hist strMasterPath) = some master)
    (hparent : parent
      = if eng.ParentIs (hist ++ [Action.LoadAsset strMasterPath]) mi master then []
        else [Action.SetParentEditorOnly mi.PackagePathName])
    (hnames : names
      = eng.GetAllTextureParameterInfo (hist ++ ([Action.LoadAsset strMasterPath] ++ parent)) mi)
    (hno : ∀ p ∈ names, Stricmp suffix p = false) :
    afterInstance eng hist asset suffix (some mi)
      = ([Action.LoadAsset strMasterPath] ++ parent ++
          [Action.UE_LOG Verbosity.Error (msgNoSuffix names)] ++
          (if Stricmp asset.PackageName (DestinationPath asset.PackagePath asset.AssetName)
           then []
           else [Action.RenameAsset asset.PackageName
                  (DestinationPath asset.PackagePath asset.AssetName)]),
         Outcome.completed) := by
  have hp : ([Action.LoadAsset strMasterPath] ++
      if (!eng.ParentIs (hist ++ [Action.LoadAsset strMasterPath]) mi master) = true then
        [Action.SetParentEditorOnly mi.PackagePathName]
      else []) = [Action.LoadAsset strMasterPath] ++ parent := by
    rw [hparent]
    cases eng.ParentIs (hist ++ [Action.LoadAsset strMasterPath]) mi master <;> rfl
  have hr : renameStep asset.PackageName (DestinationPath asset.PackagePath asset.AssetName)
      = (if Stricmp asset.PackageName (DestinationPath asset.PackagePath asset.AssetName)
         then []
         else [Action.RenameAsset asset.PackageName
                (DestinationPath asset.PackagePath asset.AssetName)]) := by
    unfold renameStep
    cases Stricmp asset.PackageName (DestinationPath asset.PackagePath asset.AssetName) <;> rfl
  unfold afterInstance
  simp only [hmaster, hp]
  rw [bindTexture_no_match eng _ asset mi master suffix (by rw [← hnames]; exact hno),
    ← hnames, hr]

/-- C6, as the code has it: when the material instance of a texture was loaded, or
created after a failed load, the master material loads, and the derived suffix matches
(ignoring letter case) none of the names in the texture-parameter list that is read from
that instance after the parent assignment, the run for that texture is exactly: mark the
texture transactional, obtain the instance, load the master material, assign the parent
if it differs, log the error listing the names, and rename the asset from its package
name to the computed target unless the two are equal ignoring letter case.  So neither
the colour-space flag nor a texture parameter is set, the error is recorded, and the
texture is still renamed. -/
theorem no_matching_parameter (eng : Engine) (hist : List Action) (asset : FAssetData)
    (n suffix : FString) (mi master : UObject) (e1 parent : List Action)
    (names : List FString)
    (hn : MaterialInstanceName asset.AssetName = some n)
    (hs : ParameterSuffix asset.AssetName = some suffix)
    (hmi :
      (CastMaterialInstanceConstant
          (eng.LoadAsset (hist ++ [Action.SetFlagsTransactional asset.PackageName])
            (MaterialInstanceFilePath asset.PackagePath n)) = some mi ∧
        e1 = [Action.LoadAsset (MaterialInstanceFilePath asset.PackagePath n)]) ∨
      (CastMaterialInstanceConstant
          (eng.LoadAsset (hist ++ [Action.SetFlagsTransactional asset.PackageName])
            (MaterialInstanceFilePath asset.PackagePath n)) = none ∧
        CastMaterialInstanceConstant
          (eng.CreateAsset
            (hist ++ [Action.SetFlagsTransactional asset.PackageName] ++
              [Action.LoadAsset (MaterialInstanceFilePath asset.PackagePath n)])
            n (GetPath (MaterialInstanceFilePath asset.PackagePath n))) = some mi ∧
        e1 = [Action.LoadAsset (MaterialInstanceFilePath asset.PackagePath n),
              Action.CreateAsset n (GetPath (MaterialInstanceFilePath asset.PackagePath n)),
              Action.SetFlagsTransactional mi.PackagePathName,
              Action.UE_LOG Verbosity.Warning (msgCreating mi.Name),
              Action.SaveAsset mi.PackagePathName]))
    (hmaster : CastMaterialInterface
      (eng.LoadAsset (hist ++ [Action.SetFlagsTransactional asset.PackageName] ++ e1)
        strMasterPath) = some master)
    (hparent : parent
      = if eng.ParentIs
            (hist ++ [Action.SetFlagsTransactional asset.PackageName] ++ e1 ++
              [Action.LoadAsset strMasterPath]) mi master
        then [] else [Action.SetParentEditorOnly mi.PackagePathName])
    (hnames : names
      = eng.GetAllTextureParameterInfo
          (hist ++ [Action.SetFlagsTransactional asset.PackageName] ++ e1 ++
            ([Action.LoadAsset strMasterPath] ++ parent)) mi)
    (hno : ∀ p ∈ names, Stricmp suffix p = false) :
    processAsset eng hist asset
      = ([Action.SetFlagsTransactional asset.PackageName] ++ e1 ++
          ([Action.LoadAsset strMasterPath] ++ parent ++
            [Action.UE_LOG Verbosity.Error (msgNoSuffix names)] ++
            (if Stricmp asset.PackageName (DestinationPath asset.PackagePath asset.AssetName)
             then []
             else [Action.RenameAsset asset.PackageName
                    (DestinationPath asset.PackagePath asset.AssetName)])),
         Outcome.completed) := by
  have hl : loadOrCreate eng (hist ++ [Action.SetFlagsTransactional asset.PackageName]) n
      (MaterialInstanceFilePath asset.PackagePath n) = (e1, some (some mi)) := by
    rcases hmi with ⟨h1, h2⟩ | ⟨h1, h2, h3⟩
    · rw [h2]
      exact loadOrCreate_loaded eng _ n _ mi h1
    · rw [h3]
      exact loadOrCreate_created eng _ n _ mi h1 h2
  have ha := afterInstance_no_match eng
    (hist ++ [Action.SetFlagsTransactional asset.PackageName] ++ e1) asset suffix mi master
    parent names hmaster hparent hnames hno
  unfold processAsset
  simp only [hn, hs, hl, ha]

/-- Witness for C6: `T_Wood_Albedo` in `/Game/Foo` on an engine whose instance lists
`Albedo` before the parent assignment and only `Normal` when its parameters are read:
the error is logged and the texture is renamed to `/Game/Foo/_Textures/T_Wood_Albedo`. -/
theorem no_matching_parameter_witness :
    processAsset engineReparenting []
        (sampleTexture "/Game/Foo".toList "T_Wood_Albedo".toList)
      = ([Action.SetFlagsTransactional
            (sampleTexture "/Game/Foo".toList "T_Wood_Albedo".toList).PackageName] ++
          [Action.LoadAsset "/Game/Foo/MI_Wood".toList] ++
          ([Action.LoadAsset strMasterPath] ++
            [Action.SetParentEditorOnly "/Game/Foo/MI_Wood".toList] ++
            [Action.UE_LOG Verbosity.Error (msgNoSuffix ["Normal".toList])] ++
            (if Stricmp (sampleTexture "/Game/Foo".toList "T_Wood_Albedo".toList).PackageName
                (DestinationPath
                  (sampleTexture "/Game/Foo".toList "T_Wood_Albedo".toList).PackagePath
                  (sampleTexture "/Game/Foo".toList "T_Wood_Albedo".toList).AssetName)
             then []
             else [Action.RenameAsset
                    (sampleTexture "/Game/Foo".toList "T_Wood_Albedo".toList).PackageName
                    (DestinationPath
                      (sampleTexture "/Game/Foo".toList "T_Wood_Albedo".toList).PackagePath
                      (sampleTexture "/Game/Foo".toList "T_Wood_Albedo".toList).AssetName)])),
         Outcome.completed) :=
  no_matching_parameter engineReparenting []
    (sampleTexture "/Game/Foo".toList "T_Wood_Albedo".toList)
    "MI_Wood".toList "Albedo".toList (sampleInstance "/Game/Foo/MI_Wood".toList) sampleMaster
    [Action.LoadAsset "/Game/Foo/MI_Wood".toList]
    [Action.SetParentEditorOnly "/Game/Foo/MI_Wood".toList] ["Normal".toList]
    (by decide) (by decide) (Or.inl ⟨by decide, by decide⟩) (by decide) (by decide)
    (by decide) (by decide)

/-- C6 fails as stated: `T_Wood_Albedo` in `/Game/Foo` matches no parameter of a material
instance whose only texture parameter is `Normal`, the error is logged, and the texture
is renamed and moved to `/Game/Foo/_Textures/T_Wood_Albedo` all the same. -/
theorem renamed_without_matching_parameter :
    ParameterSuffix "T_Wood_Albedo".toList = some "Albedo".toList ∧
      (∀ p ∈ ["Normal".toList], Stricmp "Albedo".toList p = false) ∧
      processAsset (sampleEngine ["Normal".toList]) []
          (sampleTexture "/Game/Foo".toList "T_Wood_Albedo".toList)
        = ([Action.SetFlagsTransactional "/Game/Foo/T_Wood_Albedo".toList,
            Action.LoadAsset "/Game/Foo/MI_Wood".toList,
            Action.LoadAsset strMasterPath,
            Action.UE_LOG Verbosity.Error (msgNoSuffix ["Normal".toList]),
            Action.RenameAsset "/Game/Foo/T_Wood_Albedo".toList
              "/Game/Foo/_Textures/T_Wood_Albedo".toList],
           Outcome.completed) := by
  decide

/-! ## Missing master material (claim C7) -/

theorem processAsset_no_master (eng : Engine)
    (hM : ∀ h : List Action, CastMaterialInterface (eng.LoadAsset h strMasterPath) = none)
    (hist : List Action) (asset : FAssetData) :
    (processAsset eng hist asset).2 ≠ Outcome.completed ∧
    ((processAsset eng hist asset).2 = Outcome.returned →
      (processAsset eng hist asset).1.getLast?
        = some (Action.UE_LOG Verbosity.Error msgNoMaster)) ∧
    ∀ x ∈ (processAsset eng hist asset).1,
      (∃ o, x = Action.SetFlagsTransactional o) ∨ (∃ q, x = Action.LoadAsset q) ∨
      (∃ n p, x = Action.CreateAsset n p) ∨ (∃ q, x = Action.SaveAsset q) ∨
      (∃ v m, x = Action.UE_LOG v m) := by
  unfold processAsset
  simp only
  split
  · next n suffix hn hs =>
    split
    · next e1 he =>
      refine ⟨by simp, by simp, ?_⟩
      intro x hx
      simp only [List.mem_append, List.mem_singleton] at hx
      rcases hx with rfl | hx
      · exact Or.inl ⟨_, rfl⟩
      · have hx2 : x ∈ (loadOrCreate eng
            (hist ++ [Action.SetFlagsTransactional asset.PackageName]) n
            (MaterialInstanceFilePath asset.PackagePath n)).1 := by rw [he]; exact hx
        rcases loadOrCreate_mem eng _ _ _ x hx2 with h | h | h | h | h
        · exact Or.inr (Or.inl ⟨_, h⟩)
        · exact Or.inr (Or.inr (Or.inl ⟨_, _, h⟩))
        · exact Or.inl h
        · exact Or.inr (Or.inr (Or.inr (Or.inr h)))
        · exact Or.inr (Or.inr (Or.inr (Or.inl h)))
    · next e1 mi he =>
      have ha : afterInstance eng
          (hist ++ [Action.SetFlagsTransactional asset.PackageName] ++ e1) asset suffix mi
          = ([Action.LoadAsset strMasterPath, Action.UE_LOG Verbosity.Error msgNoMaster],
             Outcome.returned) := by
        simp [afterInstance, hM]
      rw [ha]
      refine ⟨by simp, fun _ => ?_, ?_⟩
      · have hl : [Action.SetFlagsTransactional asset.PackageName] ++ e1 ++
            [Action.LoadAsset strMasterPath, Action.UE_LOG Verbosity.Error msgNoMaster]
            = ([Action.SetFlagsTransactional asset.PackageName] ++ e1 ++
                [Action.LoadAsset strMasterPath]) ++
              [Action.UE_LOG Verbosity.Error msgNoMaster] := by simp
        simp only [hl, List.getLast?_concat]
      intro x hx
      simp only [List.mem_append, List.mem_singleton, List.mem_cons, List.not_mem_nil,
        or_false] at hx
      rcases hx with (rfl | hx) | rfl | rfl
      · exact Or.inl ⟨_, rfl⟩
      · have hx2 : x ∈ (loadOrCreate eng
            (hist ++ [Action.SetFlagsTransactional asset.PackageName]) n
            (MaterialInstanceFilePath asset.PackagePath n)).1 := by rw [he]; exact hx
        rcases loadOrCreate_mem eng _ _ _ x hx2 with h | h | h | h | h
        · exact Or.inr (Or.inl ⟨_, h⟩)
        · exact Or.inr (Or.inr (Or.inl ⟨_, _, h⟩))
        · exact Or.inl h
        · exact Or.inr (Or.inr (Or.inr (Or.inr h)))
        · exact Or.inr (Or.inr (Or.inr (Or.inl h)))
      · exact Or.inr (Or.inl ⟨_, rfl⟩)
      · exact Or.inr (Or.inr (Or.inr (Or.inr ⟨_, _, rfl⟩)))
  · refine ⟨by simp, by simp, ?_⟩
    intro x hx
    simp only [List.mem_singleton] at hx
    exact Or.inl ⟨_, hx⟩

/-- C7, as the code has it: when the master material cannot be loaded, the batch stops
in its first texture, and that run assigns no parent, sets no colour-space flag and no
texture parameter, and renames nothing.  The master material is looked up only after
the material instance of the first texture: when that instance loads, the run is the
instance lookup, the master lookup and the error log; when it does not load and creating
it succeeds, the instance is created and saved first, and only then the master material
is looked up and the error logged. -/
theorem master_material_missing (eng : Engine)
    (hM : ∀ h : List Action, CastMaterialInterface (eng.LoadAsset h strMasterPath) = none)
    (hist : List Action) (asset : FAssetData) (rest : List FAssetData) :
    SetTexturesToMaterialInstance eng hist (asset :: rest)
      = (hist ++ (processAsset eng hist asset).1, (processAsset eng hist asset).2) ∧
    (processAsset eng hist asset).2 ≠ Outcome.completed ∧
    ((processAsset eng hist asset).2 = Outcome.returned →
      (processAsset eng hist asset).1.getLast?
        = some (Action.UE_LOG Verbosity.Error msgNoMaster)) ∧
    (∀ x ∈ (processAsset eng hist asset).1,
      (∀ m, x ≠ Action.SetParentEditorOnly m) ∧ (∀ t v, x ≠ Action.SetSRGB t v) ∧
      (∀ m q t, x ≠ Action.SetTextureParameterValueEditorOnly m q t) ∧
      (∀ s d, x ≠ Action.RenameAsset s d)) ∧
    (∀ (n : FString) (mi : UObject), MaterialInstanceName asset.AssetName = some n →
      CastMaterialInstanceConstant
        (eng.LoadAsset (hist ++ [Action.SetFlagsTransactional asset.PackageName])
          (MaterialInstanceFilePath asset.PackagePath n)) = some mi →
      processAsset eng hist asset
        = ([Action.SetFlagsTransactional asset.PackageName,
            Action.LoadAsset (MaterialInstanceFilePath asset.PackagePath n),
            Action.LoadAsset strMasterPath,
            Action.UE_LOG Verbosity.Error msgNoMaster],
           Outcome.returned)) ∧
    (∀ (n : FString) (mi : UObject), MaterialInstanceName asset.AssetName = some n →
      CastMaterialInstanceConstant
        (eng.LoadAsset (hist ++ [Action.SetFlagsTransactional asset.PackageName])
          (MaterialInstanceFilePath asset.PackagePath n)) = none →
      CastMaterialInstanceConstant
        (eng.CreateAsset
          (hist ++ [Action.SetFlagsTransactional asset.PackageName] ++
            [Action.LoadAsset (MaterialInstanceFilePath asset.PackagePath n)])
          n (GetPath (MaterialInstanceFilePath asset.PackagePath n))) = some mi →
      processAsset eng hist asset
        = ([Action.SetFlagsTransactional asset.PackageName,
            Action.LoadAsset (MaterialInstanceFilePath asset.PackagePath n),
            Action.CreateAsset n (GetPath (MaterialInstanceFilePath asset.PackagePath n)),
            Action.SetFlagsTransactional mi.PackagePathName,
            Action.UE_LOG Verbosity.Warning (msgCreating mi.Name),
            Action.SaveAsset mi.PackagePathName,
            Action.LoadAsset strMasterPath,
            Action.UE_LOG Verbosity.Error msgNoMaster],
           Outcome.returned)) := by
  obtain ⟨h1, h2, h3⟩ := processAsset_no_master eng hM hist asset
  have ha : ∀ (h : List Action) (s : FString) (m : Option UObject),
      afterInstance eng h asset s m
        = ([Action.LoadAsset strMasterPath, Action.UE_LOG Verbosity.Error msgNoMaster],
           Outcome.returned) := by
    intro h s m
    simp [afterInstance, hM]
  refine ⟨batch_cons_stop eng hist asset rest h1, h1, h2, ?_, ?_, ?_⟩
  · intro x hx
    rcases h3 x hx with ⟨o, rfl⟩ | ⟨q, rfl⟩ | ⟨n, p, rfl⟩ | ⟨q, rfl⟩ | ⟨v, m, rfl⟩ <;> simp
  · intro n mi hn hl
    obtain ⟨s, hs⟩ := ParameterSuffix_of_name _ _ hn
    unfold processAsset
    simp only [hn, hs, loadOrCreate_loaded eng _ n _ mi hl, ha]
    rfl
  · intro n mi hn hl hc
    obtain ⟨s, hs⟩ := ParameterSuffix_of_name _ _ hn
    unfold processAsset
    simp only [hn, hs, loadOrCreate_created eng _ n _ mi hl hc, ha]
    rfl

/-- Witness for C7: on an engine without the master material and without `MI_Wood`, the
run for `T_Wood_Albedo` creates and saves `MI_Wood` and then stops at the master lookup. -/
theorem master_material_missing_witness :
    processAsset engineWithoutMaster []
        (sampleTexture "/Game/Foo".toList "T_Wood_Albedo".toList)
      = ([Action.SetFlagsTransactional
            (sampleTexture "/Game/Foo".toList "T_Wood_Albedo".toList).PackageName,
          Action.LoadAsset (MaterialInstanceFilePath
            (sampleTexture "/Game/Foo".toList "T_Wood_Albedo".toList).PackagePath
            "MI_Wood".toList),
          Action.CreateAsset "MI_Wood".toList (GetPath (MaterialInstanceFilePath
            (sampleTexture "/Game/Foo".toList "T_Wood_Albedo".toList).PackagePath
            "MI_Wood".toList)),
          Action.SetFlagsTransactional
            (sampleInstance "/Game/Foo/MI_Wood".toList).PackagePathName,
          Action.UE_LOG Verbosity.Warning
            (msgCreating (sampleInstance "/Game/Foo/MI_Wood".toList).Name),
          Action.SaveAsset (sampleInstance "/Game/Foo/MI_Wood".toList).PackagePathName,
          Action.LoadAsset strMasterPath,
          Action.UE_LOG Verbosity.Error msgNoMaster],
         Outcome.returned) :=
  (master_material_missing engineWithoutMaster (fun _ => rfl) []
    (sampleTexture "/Game/Foo".toList "T_Wood_Albedo".toList)
    [sampleTexture "/Game/Foo".toList "T_Stone_Normal".toList]).2.2.2.2.2
    "MI_Wood".toList (sampleInstance "/Game/Foo/MI_Wood".toList)
    (by decide) (by decide) (by decide)

/-- C7 fails as stated: with no master material and no material instance `MI_Wood` yet,
processing `T_Wood_Albedo` creates `MI_Wood` in `/Game/Foo` and saves it before the
master material is looked up and the batch is aborted. -/
theorem instance_created_before_master_lookup :
    (∀ h : List Action,
      CastMaterialInterface (engineWithoutMaster.LoadAsset h strMasterPath) = none) ∧
      SetTexturesToMaterialInstance engineWithoutMaster []
          [sampleTexture "/Game/Foo".toList "T_Wood_Albedo".toList]
        = ([Action.SetFlagsTransactional "/Game/Foo/T_Wood_Albedo".toList,
            Action.LoadAsset "/Game/Foo/MI_Wood".toList,
            Action.CreateAsset "MI_Wood".toList "/Game/Foo".toList,
            Action.SetFlagsTransactional "/Game/Foo/MI_Wood".toList,
            Action.UE_LOG Verbosity.Warning (msgCreating "MI_Wood".toList),
            Action.SaveAsset "/Game/Foo/MI_Wood".toList,
            Action.LoadAsset strMasterPath,
            Action.UE_LOG Verbosity.Error msgNoMaster],
           Outcome.returned) :=
  ⟨fun _ => rfl, by decide⟩

/-! ## Missing material instance (claim C8) -/

theorem processAsset_no_instance (eng : Engine) (asset : FAssetData) (n : FString)
    (hn : MaterialInstanceName asset.AssetName = some n)
    (hl : ∀ h : List Action, CastMaterialInstanceConstant
      (eng.LoadAsset h (MaterialInstanceFilePath asset.PackagePath n)) = none)
    (hc : ∀ h : List Action, CastMaterialInstanceConstant
      (eng.CreateAsset h n (GetPath (MaterialInstanceFilePath asset.PackagePath n))) = none)
    (hist : List Action) :
    processAsset eng hist asset
      = ([Action.SetFlagsTransactional asset.PackageName,
          Action.LoadAsset (MaterialInstanceFilePath asset.PackagePath n),
          Action.CreateAsset n (GetPath (MaterialInstanceFilePath asset.PackagePath n))],
         Outcome.crashed) := by
  obtain ⟨s, hs⟩ := ParameterSuffix_of_name _ _ hn
  simp [processAsset, hn, hs, loadOrCreate_unavailable eng _ n _ (hl _) (hc _)]

/-- C8 fails on the code: when the material instance can neither be loaded nor created,
`MaterialInstance->SetFlags` at line 162 runs on the null result of the failed creation,
before the guard of lines 180-184 that would log the missing instance.  On a batch of two
textures with a loadable master material the run faults in the first texture right after
the failed creation: no error is logged and the second texture is never processed.  The
same holds on every engine and for every texture, and the load-or-create step never hands
a null instance on to the guard. -/
theorem batch_stops_at_unavailable_instance :
    (∀ h : List Action,
      CastMaterialInterface (engineWithoutInstance.LoadAsset h strMasterPath)
        = some sampleMaster) ∧
    SetTexturesToMaterialInstance engineWithoutInstance []
        [sampleTexture "/Game/Foo".toList "T_Wood_Albedo".toList,
         sampleTexture "/Game/Foo".toList "T_Stone_Normal".toList]
      = ([Action.SetFlagsTransactional "/Game/Foo/T_Wood_Albedo".toList,
          Action.LoadAsset "/Game/Foo/MI_Wood".toList,
          Action.CreateAsset "MI_Wood".toList "/Game/Foo".toList],
         Outcome.crashed) ∧
    (∀ (eng : Engine) (asset : FAssetData) (n : FString),
      MaterialInstanceName asset.AssetName = some n →
      (∀ h : List Action, CastMaterialInstanceConstant
        (eng.LoadAsset h (MaterialInstanceFilePath asset.PackagePath n)) = none) →
      (∀ h : List Action, CastMaterialInstanceConstant
        (eng.CreateAsset h n (GetPath (MaterialInstanceFilePath asset.PackagePath n)))
          = none) →
      ∀ (hist : List Action) (pre rest : List FAssetData),
        processAsset eng hist asset
          = ([Action.SetFlagsTransactional asset.PackageName,
              Action.LoadAsset (MaterialInstanceFilePath asset.PackagePath n),
              Action.CreateAsset n (GetPath (MaterialInstanceFilePath asset.PackagePath n))],
             Outcome.crashed) ∧
        SetTexturesToMaterialInstance eng hist (pre ++ asset :: rest)
          = SetTexturesToMaterialInstance eng hist (pre ++ [asset])) ∧
    (∀ (eng : Engine) (hist : List Action) (n p : FString),
      (loadOrCreate eng hist n p).2 ≠ some none) := by
  refine ⟨fun _ => rfl, by decide, ?_, ?_⟩
  · intro eng asset n hn hl hc hist pre rest
    have hp := processAsset_no_instance eng asset n hn hl hc
    have hstop : ∀ (h : List Action) (l : List FAssetData),
        SetTexturesToMaterialInstance eng h (asset :: l)
          = (h ++ (processAsset eng h asset).1, Outcome.crashed) := by
      intro h l
      have := batch_cons_stop eng h asset l (by rw [hp]; simp)
      rw [this, hp]
    refine ⟨hp hist, ?_⟩
    rw [batch_append, batch_append eng pre [asset], hstop, hstop]
  · intro eng hist n p
    unfold loadOrCreate
    simp only
    split
    · simp
    · split <;> simp

end SetTexturesToMaterial
